import Mathlib

/-!
Verification of the Changelog-Generator core (version-inference and
changelog-merge engine) against its natural-language specification.

The Python sources `src/changelogger.py`, `src/main.py` and
`src/constants.py` are shallowly embedded below.  Strings are modelled as
`List Char` (Python `str`), machine integers as `Nat` (Python `int` is
unbounded and all quantities here are non-negative), `datetime` values as a
six-field record, and code that can raise an exception returns `Option`
(or an explicit outcome type for the top-level routine, which distinguishes
an uncaught `NameError`).
-/

namespace Changelog

/-- Python strings, modelled as lists of characters. -/
abbrev Str := List Char

/-- Coerce a Lean string literal into the model. -/
def str (s : String) : Str := s.data

/-- Python `str.lower()` (ASCII-faithful). -/
def py_lower (s : Str) : Str := s.map Char.toLower

/-- Python `needle in haystack` substring containment. -/
def contains_sub (needle : Str) : Str → Bool
  | [] => needle.isEmpty
  | c :: t => needle.isPrefixOf (c :: t) || contains_sub needle t

/-- Python `line.startswith("##")`. -/
def starts_hh : Str → Bool
  | c1 :: c2 :: _ => c1 = '#' && c2 = '#'
  | _ => false

/-- Python `\s` for the characters that can occur in our lines. -/
def is_py_space (c : Char) : Bool :=
  c = ' ' || c = '\t' || c = '\n' || c = '\r' || c = '\x0b' || c = '\x0c'

/-- ASCII decimal digit test (regex `\d` on the inputs in scope). -/
def is_digit (c : Char) : Bool := '0' ≤ c && c ≤ '9'

/-- Numeric value of a digit character. -/
def dval (c : Char) : Nat := c.toNat - 48

/-- Decimal digit characters. -/
def digit_char : Nat → Char
  | 0 => '0' | 1 => '1' | 2 => '2' | 3 => '3' | 4 => '4'
  | 5 => '5' | 6 => '6' | 7 => '7' | 8 => '8' | _ => '9'

/-- Value of a digit string (Python `int` on an all-digit string). -/
def digits_to_nat (s : Str) : Nat := s.foldl (fun a c => 10 * a + dval c) 0

/-- Python `int(s)` for the non-negative inputs in scope: succeeds exactly on
non-empty all-digit strings; `none` models the `ValueError` raised
otherwise. -/
def py_int (s : Str) : Option Nat :=
  if s ≠ [] && s.all is_digit then some (digits_to_nat s) else none

/-- Decimal rendering of a natural number (Python `str`/f-string of an
`int`), via structural fuel so the kernel can evaluate it. -/
def nat_to_dec_aux : Nat → Nat → Str
  | 0, _ => []
  | f + 1, n =>
    if n < 10 then [digit_char n]
    else nat_to_dec_aux f (n / 10) ++ [digit_char (n % 10)]

/-- Decimal rendering of a natural number. -/
def nat_to_dec (n : Nat) : Str := nat_to_dec_aux (n + 1) n

/-- Python `str.splitlines()` for strings whose only line break is `'\n'`
(the only break character the program ever inserts): splits at every
newline and does not produce a final empty line for a trailing newline. -/
def split_lines : Str → List Str
  | [] => []
  | c :: r =>
    if c = '\n' then [] :: split_lines r
    else
      match split_lines r with
      | [] => [[c]]
      | l :: ls => (c :: l) :: ls

/-- Python `"\n".join(lines)`. -/
def join_nl : List Str → Str
  | [] => []
  | [l] => l
  | l :: ls => l ++ '\n' :: join_nl ls

/-- Number of newline characters in a string. -/
def count_nl : Str → Nat
  | [] => 0
  | c :: r => (if c = '\n' then 1 else 0) + count_nl r



/-- Python `datetime` (naive), second precision as used throughout. -/
structure DateTime where
  year : Nat
  month : Nat
  day : Nat
  hour : Nat
  minute : Nat
  second : Nat
deriving DecidableEq, Repr

/-- Python `datetime` comparison: lexicographic on the six fields. -/
def dt_lt (a b : DateTime) : Bool :=
  if a.year ≠ b.year then a.year < b.year
  else if a.month ≠ b.month then a.month < b.month
  else if a.day ≠ b.day then a.day < b.day
  else if a.hour ≠ b.hour then a.hour < b.hour
  else if a.minute ≠ b.minute then a.minute < b.minute
  else a.second < b.second

/-- Zero-padded two-digit rendering (`%02d`, for values up to 99). -/
def pad2 (n : Nat) : Str :=
  if n < 10 then ['0', digit_char n] else [digit_char (n / 10), digit_char (n % 10)]

/-- Zero-padded four-digit rendering (`%04d`, for values up to 9999). -/
def pad4 (n : Nat) : Str :=
  [digit_char (n / 1000), digit_char (n / 100 % 10), digit_char (n / 10 % 10),
   digit_char (n % 10)]

/-- `datetime.isoformat(timespec='seconds')`: `YYYY-MM-DDTHH:MM:SS`. -/
def iso_render (dt : DateTime) : Str :=
  pad4 dt.year ++ '-' :: pad2 dt.month ++ '-' :: pad2 dt.day ++
    'T' :: pad2 dt.hour ++ ':' :: pad2 dt.minute ++ ':' :: pad2 dt.second

/-- A date-only text `YYYY-MM-DD`, the other textual time form of the
changelog header grammar. -/
def date_render (y mo d : Nat) : Str :=
  pad4 y ++ '-' :: (pad2 mo ++ '-' :: pad2 d)

/-- Days in a month, Gregorian rules, as validated by `datetime`. -/
def days_in_month (y mo : Nat) : Nat :=
  if mo = 2 then
    if (y % 4 = 0 && y % 100 ≠ 0) || y % 400 = 0 then 29 else 28
  else if mo = 4 || mo = 6 || mo = 9 || mo = 11 then 30
  else 31

/-- A datetime is in range exactly when `datetime(...)` would accept it. -/
def dt_valid (dt : DateTime) : Bool :=
  1 ≤ dt.year && dt.year ≤ 9999 && 1 ≤ dt.month && dt.month ≤ 12 &&
    1 ≤ dt.day && dt.day ≤ days_in_month dt.year dt.month &&
    dt.hour ≤ 23 && dt.minute ≤ 59 && dt.second ≤ 59

/-- Raw six-tuple of numbers scanned from an ISO `YYYY-MM-DDTHH:MM:SS` text. -/
abbrev Iso6 := Nat × Nat × Nat × Nat × Nat × Nat

/-- `datetime.fromisoformat` / `strptime` value construction: range-checks the
fields (Python raises `ValueError`, modelled `none`, when out of range). -/
def from_iso : Iso6 → Option DateTime
  | (y, mo, d, h, mi, s) =>
    let dt : DateTime := ⟨y, mo, d, h, mi, s⟩
    if dt_valid dt then some dt else none

/-- A change item collected from the repository: a pull request carries a
title and a body, a commit carries its message
(`changelogger.py` branches on `isinstance`). -/
inductive ChangeItem where
  | pr (title body : Str)
  | commit (message : Str)
deriving DecidableEq, Repr

/-- `changelogger._bump_version`: the classified text of one item —
`item.title.lower() + '\n' + item.body.lower()` for a pull request,
`item.commit.message.lower()` for a commit (lines 231-234). -/
def item_content : ChangeItem → Str
  | .pr title body => py_lower title ++ '\n' :: py_lower body
  | .commit message => py_lower message

/-- Semantic-versioning bump categories, ordered by precedence. -/
inductive BumpCategory where
  | BREAKING | FEATURE | FIX | NONE
deriving DecidableEq, Repr

/-- The keyword chain of `changelogger._bump_version` (lines 239-246):
`"breaking change" in content`, else any of `["feature", "feat"]`,
else `"fix" in content`, else unclassified. -/
def classify_content (c : Str) : BumpCategory :=
  if contains_sub (str "breaking change") c then .BREAKING
  else if contains_sub (str "feature") c || contains_sub (str "feat") c then .FEATURE
  else if contains_sub (str "fix") c then .FIX
  else .NONE

/-- Category assigned to an item by `changelogger._bump_version`. -/
def classify_item (it : ChangeItem) : BumpCategory :=
  classify_content (item_content it)

/-- Python `"A.B.C".split(".")`. -/
def split_dots : Str → List Str
  | [] => [[]]
  | c :: r =>
    if c = '.' then [] :: split_dots r
    else
      match split_dots r with
      | [] => [[c]]
      | p :: ps => (c :: p) :: ps

/-- `major, minor, patch = map(int, version.split("."))` — `none` models the
`ValueError` raised on a wrong number of components or a non-integer
component. -/
def parse_version_nums (s : Str) : Option (Nat × Nat × Nat) :=
  match split_dots s with
  | [x, y, z] =>
    match py_int x, py_int y, py_int z with
    | some a, some b, some c => some (a, b, c)
    | _, _, _ => none
  | _ => none

/-- The digits-and-dots part `A.B.C` of a rendered version. -/
def version_digits (a b c : Nat) : Str :=
  nat_to_dec a ++ ('.' :: (nat_to_dec b ++ ('.' :: nat_to_dec c)))

/-- `f"v{major}.{minor}.{patch}"`. -/
def v_render (a b c : Nat) : Str := 'v' :: version_digits a b c

/-- The flag loop of `changelogger._bump_version` (lines 227-246): one
boolean per bump kind, set when some item classifies to that category. -/
def bump_flags (items : List ChangeItem) : Bool × Bool × Bool :=
  items.foldl
    (fun f it =>
      match classify_item it with
      | .BREAKING => (true, f.2.1, f.2.2)
      | .FEATURE => (f.1, true, f.2.2)
      | .FIX => (f.1, f.2.1, true)
      | .NONE => f)
    (false, false, false)

/-- `changelogger._bump_version` (lines 215-258): strips a leading `"v"`,
parses the version as three dot-separated integers (an unparseable version
raises, modelled `none`), classifies every item, and applies the single
highest-precedence bump; with no bump it returns the (stripped) version. -/
def bump_version (version : Str) (additions : List ChangeItem) : Option Str :=
  let version := if version.head? = some 'v' then version.tail else version
  match parse_version_nums version with
  | none => none
  | some (major, minor, patch) =>
    let flags := bump_flags additions
    if flags.1 then some (v_render (major + 1) minor patch)
    else if flags.2.1 then some (v_render major (minor + 1) patch)
    else if flags.2.2 then some (v_render major minor (patch + 1))
    else some version

/-- `main.calculate_new_version`'s classified text of one item:
`(item.title + "\n" + (item.body or "")).lower()` for a pull request,
`item.commit.message.lower()` for a commit (lines 89-94). -/
def item_content_main : ChangeItem → Str
  | .pr title body => py_lower (title ++ '\n' :: body)
  | .commit message => py_lower message

/-- The keyword chain of `main.calculate_new_version` (lines 96-101). -/
def classify_content_main (c : Str) : BumpCategory :=
  if contains_sub (str "breaking change") c then .BREAKING
  else if contains_sub (str "feat") c || contains_sub (str "feature") c then .FEATURE
  else if contains_sub (str "fix") c then .FIX
  else .NONE

/-- The flag loop of `main.calculate_new_version` (lines 84-101). -/
def bump_flags_main (items : List ChangeItem) : Bool × Bool × Bool :=
  items.foldl
    (fun f it =>
      match classify_content_main (item_content_main it) with
      | .BREAKING => (true, f.2.1, f.2.2)
      | .FEATURE => (f.1, true, f.2.2)
      | .FIX => (f.1, f.2.1, true)
      | .NONE => f)
    (false, false, false)

/-- Python `s.strip("v")`: removes `'v'` characters from both ends. -/
def strip_v (s : Str) : Str :=
  ((s.dropWhile (· = 'v')).reverse.dropWhile (· = 'v')).reverse

/-- `main.calculate_new_version` (lines 83-119): classifies the items, then
parses the version — a version not starting with `"v"` is read as `(0,0,0)`,
a `"v"`-version that fails to parse returns `None` — and applies the single
highest-precedence bump, resetting the lower counters; with no bump it
returns the input version unchanged. -/
def calculate_new_version (current_version : Str) (items : List ChangeItem) :
    Option Str :=
  let flags := bump_flags_main items
  let nums : Option (Nat × Nat × Nat) :=
    if current_version.head? = some 'v' then parse_version_nums (strip_v current_version)
    else some (0, 0, 0)
  match nums with
  | none => none
  | some (major, minor, patch) =>
    if flags.1 then some (v_render (major + 1) 0 0)
    else if flags.2.1 then some (v_render major (minor + 1) 0)
    else if flags.2.2 then some (v_render major minor (patch + 1))
    else some current_version

/-- Maybe-parse of exactly two digit characters (regex `\d{2}`). -/
def parse2 : Str → Option (Nat × Str)
  | c1 :: c2 :: r =>
    if is_digit c1 && is_digit c2 then some (10 * dval c1 + dval c2, r) else none
  | _ => none

/-- Maybe-parse of exactly four digit characters (regex `\d{4}`). -/
def parse4 : Str → Option (Nat × Str)
  | c1 :: c2 :: c3 :: c4 :: r =>
    if is_digit c1 && is_digit c2 && is_digit c3 && is_digit c4 then
      some (1000 * dval c1 + 100 * dval c2 + 10 * dval c3 + dval c4, r)
    else none
  | _ => none

/-- Consume one expected literal character. -/
def expect (c : Char) : Str → Option Str
  | x :: r => if x = c then some r else none
  | [] => none

/-- The date-time part of `changelog_regex`:
`\d{4}-\d{2}-\d{2}T\d{2}:\d{2}:\d{2}` (changelogger.py line 54). -/
def parse_iso_digits (s : Str) : Option (Iso6 × Str) := do
  let (y, s) ← parse4 s
  let s ← expect '-' s
  let (mo, s) ← parse2 s
  let s ← expect '-' s
  let (d, s) ← parse2 s
  let s ← expect 'T' s
  let (h, s) ← parse2 s
  let s ← expect ':' s
  let (mi, s) ← parse2 s
  let s ← expect ':' s
  let (sec, s) ← parse2 s
  some ((y, mo, d, h, mi, sec), s)

/-- A successful match of `changelog_regex`. -/
structure HeaderMatch where
  /-- Capture group 1, the matched `vX.Y.Z` text. -/
  group1 : Str
  /-- Numeric values of the three digit runs of group 1. -/
  nums : Nat × Nat × Nat
  /-- The six numbers of capture group 2 (the ISO date-time text). -/
  iso : Iso6
deriving DecidableEq, Repr

/-- `changelog_regex.match(line)` (changelogger.py line 54):
`##\s*(v\d+\.\d+\.\d+)\s*-\s*\((\d{4}-\d{2}-\d{2}T\d{2}:\d{2}:\d{2})\)`,
anchored at the start of the line, trailing characters permitted.  Every
repetition here is followed by a literal outside its character class, so
greedy scanning without backtracking is equivalent to the regex engine. -/
def scan_header (line : Str) : Option HeaderMatch := do
  let r1 ← expect '#' line
  let r2 ← expect '#' r1
  let r3 ← expect 'v' (r2.dropWhile is_py_space)
  let d1 := r3.takeWhile is_digit
  if d1 = [] then none
  else do
    let r4 ← expect '.' (r3.dropWhile is_digit)
    let d2 := r4.takeWhile is_digit
    if d2 = [] then none
    else do
      let r5 ← expect '.' (r4.dropWhile is_digit)
      let d3 := r5.takeWhile is_digit
      if d3 = [] then none
      else do
        let r6 ← expect '-' ((r5.dropWhile is_digit).dropWhile is_py_space)
        let r7 ← expect '(' (r6.dropWhile is_py_space)
        let (iso, r8) ← parse_iso_digits r7
        let _ ← expect ')' r8
        some ⟨'v' :: (d1 ++ '.' :: (d2 ++ '.' :: d3)),
              (digits_to_nat d1, digits_to_nat d2, digits_to_nat d3), iso⟩

/-- One attempt of the fallback search pattern
`\((\d{4}-\d{2}-\d{2}T\d{2}:\d{2}:\d{2})\)` at the start of `s`. -/
def try_paren_iso (s : Str) : Option Iso6 := do
  let s ← expect '(' s
  let (iso, s) ← parse_iso_digits s
  let _ ← expect ')' s
  pure iso

/-- `re.search` of the fallback pattern (changelogger.py line 132): try the
pattern at every start position, leftmost match wins. -/
def search_paren_iso : Str → Option Iso6
  | [] => none
  | c :: r =>
    match try_paren_iso (c :: r) with
    | some iso => some iso
    | none => search_paren_iso r

/-- The fallback loop of `_get_previous_release_info` (lines 129-135): find a
collected header line containing `"[initial release]"` (case-insensitively),
search it for a parenthesized date-time, and report version `v0.0.0`; a
`datetime.fromisoformat` failure raises and the surrounding `except` turns it
into the no-result return. -/
def fallback_initial : List Str → Option (Str × DateTime)
  | [] => none
  | l :: ls =>
    if contains_sub (str "[initial release]") (py_lower l) then
      match search_paren_iso l with
      | some iso => (from_iso iso).map fun dt => (str "v0.0.0", dt)
      | none => fallback_initial ls
    else fallback_initial ls

/-- The main loop of `_get_previous_release_info` (lines 117-124): scan the
lines top to bottom, collect `##`-prefixed ones, and return on the first line
matched by `changelog_regex`; a `datetime.fromisoformat` failure there raises
and the surrounding `except` turns it into the no-result return. -/
def scan_for_release : List Str → List Str → Option (Str × DateTime)
  | [], headers => fallback_initial headers.reverse
  | l :: ls, headers =>
    if starts_hh l then
      match scan_header l with
      | some m => (from_iso m.iso).map fun dt => (m.group1, dt)
      | none => scan_for_release ls (l :: headers)
    else scan_for_release ls headers

/-- `changelogger._get_previous_release_info` (lines 104-141); `none` covers
both the explicit `(None, None)` returns and the caught-exception path, which
the caller cannot distinguish. -/
def get_previous_release_info (changelog : Str) : Option (Str × DateTime) :=
  scan_for_release (split_lines changelog) []

/-- `main.parse_release_line` (lines 14-27): `re.match` of
`##\s*(v[\d\.]+)\s*\((\d{4}-\d{2}-\d{2})\)$` followed by
`datetime.strptime(date, "%Y-%m-%d")`, which yields midnight of that date.
(A shape-matched but out-of-range date makes `strptime` raise in Python;
that path is modelled `none` and is not exercised by any claim.)  As in
`scan_header`, every repetition is followed by a literal outside its
class, so greedy scanning is equivalent to the regex engine. -/
def parse_release_line (line : Str) : Option (Str × DateTime) := do
  let r1 ← expect '#' line
  let r2 ← expect '#' r1
  let r3 ← expect 'v' (r2.dropWhile is_py_space)
  let vd := r3.takeWhile fun c => is_digit c || c = '.'
  if vd = [] then none
  else do
    let r4 ← expect '(' ((r3.dropWhile fun c => is_digit c || c = '.').dropWhile is_py_space)
    let (y, s1) ← parse4 r4
    let s2 ← expect '-' s1
    let (mo, s3) ← parse2 s2
    let s4 ← expect '-' s3
    let (d, s5) ← parse2 s4
    let r5 ← expect ')' s5
    if r5 = [] then (from_iso (y, mo, d, 0, 0, 0)).map fun dt => ('v' :: vd, dt)
    else none

/-- Rendering of one addition inside `_create_new_entry` (lines 274-278): a
pull request renders as `- {title}`, a commit as `- {first message line}`.
(Python's `splitlines()[0]` raises on an empty message; that corner is
modelled as the empty string and not exercised by any claim.) -/
def render_item : ChangeItem → Str
  | .pr title _ => str "- " ++ title
  | .commit message =>
    str "- " ++ (match split_lines message with | l :: _ => l | [] => [])

/-- `changelogger._create_new_entry` (lines 260-280):
header `## v{new_version} - ({custom_date})` followed by one line per
addition, joined with newlines (no trailing newline). -/
def create_new_entry (new_version : Str) (additions : List ChangeItem)
    (custom_date : Str) : Str :=
  join_nl ((str "## v" ++ new_version ++ str " - (" ++ custom_date ++ str ")") ::
    additions.map render_item)

/-- The four entry positions (changelogger.py lines 8-12). -/
inductive ChangelogEntryPosition where
  | ABOVE_PREVIOUS | BELOW_PREVIOUS | TOP | BOTTOM
deriving DecidableEq, Repr

/-- The ABOVE_PREVIOUS loop (lines 304-308): insert the entry string as one
list element before the first `##`-prefixed line; `none` when no such line
exists. -/
def insert_above (entry : Str) : List Str → Option (List Str)
  | [] => none
  | l :: ls =>
    if starts_hh l then some (entry :: l :: ls)
    else (insert_above entry ls).map (l :: ·)

/-- The BELOW_PREVIOUS loop (lines 313-317): insert the entry string as one
list element after the first `##`-prefixed line. -/
def insert_below (entry : Str) : List Str → Option (List Str)
  | [] => none
  | l :: ls =>
    if starts_hh l then some (l :: entry :: ls)
    else (insert_below entry ls).map (l :: ·)

/-- `changelogger._create_updated_changelog` (lines 283-322).  TOP and BOTTOM
concatenate the raw strings; the two relative positions split into lines,
insert, and re-join, falling back to `new_entry + "\n" + changelog`
(ABOVE_PREVIOUS) or `changelog + new_entry` (BELOW_PREVIOUS) when no header
line exists.  The Python `case _` branch is unreachable: the enumeration has
exactly these four members. -/
def create_updated_changelog (position : ChangelogEntryPosition)
    (new_entry changelog : Str) : Str :=
  match position with
  | .TOP => new_entry ++ changelog
  | .BOTTOM => changelog ++ new_entry
  | .ABOVE_PREVIOUS =>
    match insert_above new_entry (split_lines changelog) with
    | some ls => join_nl ls
    | none => new_entry ++ '\n' :: changelog
  | .BELOW_PREVIOUS =>
    match insert_below new_entry (split_lines changelog) with
    | some ls => join_nl ls
    | none => changelog ++ new_entry

/-- A pull request as seen by `_get_pull_requests`. -/
structure PullRequestData where
  title : Str
  body : Str
  merged_at : DateTime
deriving DecidableEq, Repr

/-- The loop of `changelogger._get_pull_requests` (lines 198-203) over the
host-returned pull requests.  The guard on line 199 admits a pull request
exactly when its merge time lies OUTSIDE `[since, until]`; in that branch the
body iterates `self.ChangelogEntryType` — a plain class, which is not
iterable — so Python raises `TypeError` there, the surrounding `except`
(lines 206-211) logs it, and the accumulated `found_prs` list is returned. -/
def get_pull_requests_loop (since until_dt : DateTime) :
    List PullRequestData → List PullRequestData → List PullRequestData
  | [], found => found.reverse
  | pr :: rest, found =>
    if dt_lt pr.merged_at since || dt_lt until_dt pr.merged_at then
      found.reverse
    else get_pull_requests_loop since until_dt rest found

/-- `changelogger._get_pull_requests` with an explicit `until` argument
(the defaulted `until` is an ISO string and every comparison against it
raises the same caught `TypeError`). -/
def get_pull_requests (prs : List PullRequestData) (since until_dt : DateTime) :
    List PullRequestData :=
  get_pull_requests_loop since until_dt prs []

/-- Configuration of one run of `create_new_changelog_entry`. -/
structure RunConfig where
  use_commits : Bool
  use_pull_requests : Bool
  release : Bool
  dry_run : Bool
  entry_position : ChangelogEntryPosition
deriving DecidableEq, Repr

/-- Results of the collaborator calls (§6 boundary) consumed by one run:
`changelog_content = none` models `get_contents` raising, the booleans model
success of the corresponding write calls, and the two lists are what the two
collectors return. -/
structure RepoState where
  changelog_content : Option Str
  create_file_ok : Bool
  commits : List ChangeItem
  pull_requests : List ChangeItem
  now_iso : Str
  publish_ok : Bool
  release_ok : Bool
deriving DecidableEq, Repr

/-- Outcome of `create_new_changelog_entry`: a normal boolean return, or an
exception that propagates out of the routine. -/
inductive RunOutcome where
  | ok (success : Bool)
  | name_error
  | value_error
deriving DecidableEq, Repr

/-- `changelogger.create_new_changelog_entry` (lines 391-465).
When the changelog fetch raises (lines 399-413): outside dry-run a failed
file creation returns `False`; a successful creation re-fetches the content
and then reaches the unconditional `return False` on line 413; under dry-run
the routine returns `True`.  Otherwise the previous release marker is parsed
(`False` when absent), the two collectors run only under their flags — so
line 434 `entries = commits + pull_requests` raises `NameError` whenever one
flag is off and its local variable was never assigned — the version is
bumped (a `ValueError` from an unparseable version would propagate), the
entry is rendered and merged, and dry-run returns `True` before publishing;
then publish failure, and release failure when a release was requested,
each return `False`. -/
def create_new_changelog_entry (cfg : RunConfig) (repo : RepoState) : RunOutcome :=
  match repo.changelog_content with
  | none =>
    if !cfg.dry_run then
      if !repo.create_file_ok then .ok false
      else .ok false
    else .ok true
  | some changelog =>
    match get_previous_release_info changelog with
    | none => .ok false
    | some (previous_version, _previous_date) =>
      let commits? : Option (List ChangeItem) :=
        if cfg.use_commits then some repo.commits else none
      let pull_requests? : Option (List ChangeItem) :=
        if cfg.use_pull_requests then some repo.pull_requests else none
      match commits?, pull_requests? with
      | some commits, some pull_requests =>
        let entries := commits ++ pull_requests
        if entries.isEmpty && !cfg.dry_run then .ok false
        else
          match bump_version previous_version entries with
          | none => .value_error
          | some new_version =>
            let new_entry := create_new_entry new_version entries repo.now_iso
            let _updated_changelog :=
              create_updated_changelog cfg.entry_position new_entry changelog
            if cfg.dry_run then .ok true
            else if !repo.publish_ok then .ok false
            else if cfg.release && !repo.release_ok then .ok false
            else .ok true
      | _, _ => .name_error


section DigitLemmas

theorem dval_digit_char : ∀ k < 10, dval (digit_char k) = k := by decide

theorem is_digit_digit_char : ∀ k < 10, is_digit (digit_char k) = true := by decide

theorem nat_to_dec_aux_spec :
    ∀ fuel n, n < fuel →
      (nat_to_dec_aux fuel n).all is_digit = true ∧
      nat_to_dec_aux fuel n ≠ [] ∧
      ∀ acc, (nat_to_dec_aux fuel n).foldl (fun a c => 10 * a + dval c) acc =
        acc * 10 ^ (nat_to_dec_aux fuel n).length + n := by
  intro fuel
  induction fuel with
  | zero => intro n h; omega
  | succ f ih =>
    intro n h
    by_cases h10 : n < 10
    · refine ⟨?_, ?_, ?_⟩
      · simp [nat_to_dec_aux, h10, List.all_cons, is_digit_digit_char n h10]
      · simp [nat_to_dec_aux, h10]
      · intro acc
        simp [nat_to_dec_aux, h10, List.foldl, dval_digit_char n h10]
        ring
    · have hdiv : n / 10 < f := by
        have h1 : n / 10 < n := Nat.div_lt_self (by omega) (by omega)
        omega
      obtain ⟨hall, hne, hfold⟩ := ih (n / 10) hdiv
      refine ⟨?_, ?_, ?_⟩
      · simp only [nat_to_dec_aux, if_neg h10, List.all_append, hall,
          List.all_cons, List.all_nil]
        simp [is_digit_digit_char (n % 10) (Nat.mod_lt _ (by omega))]
      · simp [nat_to_dec_aux, h10]
      · intro acc
        simp only [nat_to_dec_aux, if_neg h10, List.foldl_append, hfold,
          List.foldl, List.length_append, List.length_cons, List.length_nil]
        rw [dval_digit_char (n % 10) (Nat.mod_lt _ (by omega))]
        have : acc * 10 ^ ((nat_to_dec_aux f (n / 10)).length + (0 + 1)) =
            acc * 10 ^ (nat_to_dec_aux f (n / 10)).length * 10 := by
          rw [pow_succ]; ring
        rw [this]
        omega

theorem nat_to_dec_all_digit (n : Nat) : (nat_to_dec n).all is_digit = true :=
  (nat_to_dec_aux_spec (n + 1) n (by omega)).1

theorem nat_to_dec_ne_nil (n : Nat) : nat_to_dec n ≠ [] :=
  (nat_to_dec_aux_spec (n + 1) n (by omega)).2.1

theorem digits_to_nat_nat_to_dec (n : Nat) : digits_to_nat (nat_to_dec n) = n := by
  have h := (nat_to_dec_aux_spec (n + 1) n (by omega)).2.2 0
  simpa [digits_to_nat, nat_to_dec] using h

theorem py_int_nat_to_dec (n : Nat) : py_int (nat_to_dec n) = some n := by
  simp [py_int, nat_to_dec_all_digit n, nat_to_dec_ne_nil n, digits_to_nat_nat_to_dec n]

theorem not_digit_dot : is_digit '.' = false := by decide

theorem nat_to_dec_no_dot (n : Nat) : '.' ∉ nat_to_dec n := by
  intro hmem
  have h := nat_to_dec_all_digit n
  rw [List.all_eq_true] at h
  have := h '.' hmem
  simp [is_digit] at this

theorem nat_to_dec_no_nl (n : Nat) : '\n' ∉ nat_to_dec n := by
  intro hmem
  have h := nat_to_dec_all_digit n
  rw [List.all_eq_true] at h
  have := h '\n' hmem
  simp [is_digit] at this

end DigitLemmas

section VersionLemmas

theorem split_dots_ne_nil (s : Str) : split_dots s ≠ [] := by
  cases s with
  | nil => simp [split_dots]
  | cons c r =>
    by_cases h : c = '.'
    · simp [split_dots, h]
    · simp only [split_dots, if_neg h]
      cases split_dots r <;> simp

theorem split_dots_no_dot (s : Str) (h : '.' ∉ s) : split_dots s = [s] := by
  induction s with
  | nil => rfl
  | cons c r ih =>
    have hc : c ≠ '.' := fun hc => h (by simp [hc])
    have hr : '.' ∉ r := fun hr => h (List.mem_cons_of_mem _ hr)
    simp [split_dots, hc, ih hr]

theorem split_dots_append (s r : Str) (h : '.' ∉ s) :
    split_dots (s ++ '.' :: r) = s :: split_dots r := by
  induction s with
  | nil => simp [split_dots]
  | cons c t ih =>
    have hc : c ≠ '.' := fun hc => h (by simp [hc])
    have ht : '.' ∉ t := fun hm => h (List.mem_cons_of_mem _ hm)
    simp [split_dots, hc, ih ht]

theorem parse_version_digits (a b c : Nat) :
    parse_version_nums (version_digits a b c) = some (a, b, c) := by
  have h1 : split_dots (version_digits a b c) = [nat_to_dec a, nat_to_dec b, nat_to_dec c] := by
    rw [version_digits, split_dots_append _ _ (nat_to_dec_no_dot a),
      split_dots_append _ _ (nat_to_dec_no_dot b),
      split_dots_no_dot _ (nat_to_dec_no_dot c)]
  rw [parse_version_nums, h1]
  simp [py_int_nat_to_dec]

/-- The two classifiers agree on the text of an item. -/
theorem item_content_main_eq (it : ChangeItem) : item_content_main it = item_content it := by
  cases it with
  | pr title body => simp [item_content_main, item_content, py_lower]
  | commit message => rfl

theorem classify_content_breaking (s : Str) :
    classify_content s = .BREAKING ↔ contains_sub (str "breaking change") s = true := by
  rw [classify_content]
  by_cases h : contains_sub (str "breaking change") s = true
  · simp [h]
  · simp only [Bool.not_eq_true] at h
    simp only [h, Bool.false_eq_true, if_false]
    constructor
    · intro hc
      split at hc
      · simp at hc
      · split at hc
        · simp at hc
        · simp at hc
    · intro hc
      exact hc.elim

theorem classify_content_main_breaking (s : Str) :
    classify_content_main s = .BREAKING ↔ contains_sub (str "breaking change") s = true := by
  rw [classify_content_main]
  by_cases h : contains_sub (str "breaking change") s = true
  · simp [h]
  · simp only [Bool.not_eq_true] at h
    simp only [h, Bool.false_eq_true, if_false]
    constructor
    · intro hc
      split at hc
      · simp at hc
      · split at hc
        · simp at hc
        · simp at hc
    · intro hc
      exact hc.elim

/-- The flag fold computes, per category, whether some item classifies to it. -/
theorem bump_flags_eq (items : List ChangeItem) :
    bump_flags items =
      (items.any fun it => classify_item it == .BREAKING,
       items.any fun it => classify_item it == .FEATURE,
       items.any fun it => classify_item it == .FIX) := by
  rw [bump_flags]
  suffices h : ∀ acc : Bool × Bool × Bool,
      items.foldl
        (fun f it =>
          match classify_item it with
          | .BREAKING => (true, f.2.1, f.2.2)
          | .FEATURE => (f.1, true, f.2.2)
          | .FIX => (f.1, f.2.1, true)
          | .NONE => f) acc =
      (acc.1 || items.any fun it => classify_item it == .BREAKING,
       acc.2.1 || items.any fun it => classify_item it == .FEATURE,
       acc.2.2 || items.any fun it => classify_item it == .FIX) by
    simpa using h (false, false, false)
  induction items with
  | nil => intro acc; simp
  | cons it its ih =>
    intro acc
    simp only [List.foldl_cons, List.any_cons]
    rw [ih]
    rcases h : classify_item it <;> simp [h, Bool.or_assoc,
      show (BumpCategory.BREAKING == BumpCategory.FEATURE) = false from rfl,
      show (BumpCategory.BREAKING == BumpCategory.FIX) = false from rfl,
      show (BumpCategory.FEATURE == BumpCategory.BREAKING) = false from rfl,
      show (BumpCategory.FEATURE == BumpCategory.FIX) = false from rfl,
      show (BumpCategory.FIX == BumpCategory.BREAKING) = false from rfl,
      show (BumpCategory.FIX == BumpCategory.FEATURE) = false from rfl,
      show (BumpCategory.NONE == BumpCategory.BREAKING) = false from rfl,
      show (BumpCategory.NONE == BumpCategory.FEATURE) = false from rfl,
      show (BumpCategory.NONE == BumpCategory.FIX) = false from rfl,
      show (BumpCategory.BREAKING == BumpCategory.BREAKING) = true from rfl,
      show (BumpCategory.FEATURE == BumpCategory.FEATURE) = true from rfl,
      show (BumpCategory.FIX == BumpCategory.FIX) = true from rfl]

/-- Same computation for `main.calculate_new_version`'s flag loop. -/
theorem bump_flags_main_eq (items : List ChangeItem) :
    bump_flags_main items =
      (items.any fun it => classify_content_main (item_content_main it) == .BREAKING,
       items.any fun it => classify_content_main (item_content_main it) == .FEATURE,
       items.any fun it => classify_content_main (item_content_main it) == .FIX) := by
  rw [bump_flags_main]
  suffices h : ∀ acc : Bool × Bool × Bool,
      items.foldl
        (fun f it =>
          match classify_content_main (item_content_main it) with
          | .BREAKING => (true, f.2.1, f.2.2)
          | .FEATURE => (f.1, true, f.2.2)
          | .FIX => (f.1, f.2.1, true)
          | .NONE => f) acc =
      (acc.1 || items.any fun it => classify_content_main (item_content_main it) == .BREAKING,
       acc.2.1 || items.any fun it => classify_content_main (item_content_main it) == .FEATURE,
       acc.2.2 || items.any fun it => classify_content_main (item_content_main it) == .FIX) by
    simpa using h (false, false, false)
  induction items with
  | nil => intro acc; simp
  | cons it its ih =>
    intro acc
    simp only [List.foldl_cons, List.any_cons]
    rw [ih]
    rcases h : classify_content_main (item_content_main it) <;> simp [h, Bool.or_assoc,
      show (BumpCategory.BREAKING == BumpCategory.FEATURE) = false from rfl,
      show (BumpCategory.BREAKING == BumpCategory.FIX) = false from rfl,
      show (BumpCategory.FEATURE == BumpCategory.BREAKING) = false from rfl,
      show (BumpCategory.FEATURE == BumpCategory.FIX) = false from rfl,
      show (BumpCategory.FIX == BumpCategory.BREAKING) = false from rfl,
      show (BumpCategory.FIX == BumpCategory.FEATURE) = false from rfl,
      show (BumpCategory.NONE == BumpCategory.BREAKING) = false from rfl,
      show (BumpCategory.NONE == BumpCategory.FEATURE) = false from rfl,
      show (BumpCategory.NONE == BumpCategory.FIX) = false from rfl,
      show (BumpCategory.BREAKING == BumpCategory.BREAKING) = true from rfl,
      show (BumpCategory.FEATURE == BumpCategory.FEATURE) = true from rfl,
      show (BumpCategory.FIX == BumpCategory.FIX) = true from rfl]

/-- `bump_version` on a canonically rendered version, expressed through its
flags. -/
theorem bump_version_vrender (a b c : Nat) (items : List ChangeItem) :
    bump_version (v_render a b c) items =
      (let flags := bump_flags items
       if flags.1 then some (v_render (a + 1) b c)
       else if flags.2.1 then some (v_render a (b + 1) c)
       else if flags.2.2 then some (v_render a b (c + 1))
       else some (version_digits a b c)) := by
  rw [bump_version]
  simp only [v_render, List.head?_cons, List.tail_cons, reduceIte, parse_version_digits]

theorem strip_v_eq (body : Str) (h1 : body.head? ≠ some 'v')
    (h2 : body.getLast? ≠ some 'v') : strip_v ('v' :: body) = body := by
  rw [strip_v]
  have hd : List.dropWhile (· = 'v') ('v' :: body) = List.dropWhile (· = 'v') body := by
    simp [List.dropWhile_cons]
  rw [hd]
  have hb : List.dropWhile (· = 'v') body = body := by
    cases body with
    | nil => rfl
    | cons x t =>
      have : x ≠ 'v' := by
        intro hx; exact h1 (by simp [hx])
      simp [List.dropWhile_cons, this]
  rw [hb]
  cases hr : body.reverse with
  | nil =>
    have : body = [] := by simpa using congrArg List.reverse hr
    simp [this]
  | cons x t =>
    have hx : x ≠ 'v' := by
      intro hxv
      apply h2
      rw [← List.head?_reverse, hr, hxv]
      rfl
    have hkeep : List.dropWhile (fun c => decide (c = 'v')) (x :: t) = x :: t := by
      simp [List.dropWhile_cons, hx]
    rw [hkeep, ← hr, List.reverse_reverse]

theorem version_digits_head_digit (a b c : Nat) :
    ∃ x t, version_digits a b c = x :: t ∧ is_digit x = true := by
  obtain ⟨x, t, hx⟩ := List.exists_cons_of_ne_nil (nat_to_dec_ne_nil a)
  refine ⟨x, t ++ '.' :: nat_to_dec b ++ '.' :: nat_to_dec c, by simp [version_digits, hx], ?_⟩
  have h := nat_to_dec_all_digit a
  rw [List.all_eq_true] at h
  exact h x (by simp [hx])

theorem version_digits_last_digit (a b c : Nat) :
    ∃ x, (version_digits a b c).getLast? = some x ∧ is_digit x = true := by
  obtain ⟨x, hx⟩ :=
    Option.isSome_iff_exists.1 (List.getLast?_isSome.2 (nat_to_dec_ne_nil c))
  refine ⟨x, ?_, ?_⟩
  · rw [version_digits]
    simp [List.getLast?_append, List.getLast?_cons, hx]
  · have hmem : x ∈ nat_to_dec c := List.mem_of_mem_getLast? (by simp [hx])
    have h := nat_to_dec_all_digit c
    rw [List.all_eq_true] at h
    exact h x hmem

theorem strip_v_version_digits (a b c : Nat) :
    strip_v (v_render a b c) = version_digits a b c := by
  obtain ⟨x, t, hxt, hxd⟩ := version_digits_head_digit a b c
  obtain ⟨y, hy, hyd⟩ := version_digits_last_digit a b c
  rw [v_render]
  apply strip_v_eq
  · rw [hxt]
    intro h
    have : x = 'v' := by simpa using h
    rw [this] at hxd
    simp [is_digit] at hxd
  · rw [hy]
    intro h
    have : y = 'v' := by simpa using h
    rw [this] at hyd
    simp [is_digit] at hyd

/-- `calculate_new_version` on a canonically rendered version, expressed
through its flags. -/
theorem calculate_new_version_vrender (a b c : Nat) (items : List ChangeItem) :
    calculate_new_version (v_render a b c) items =
      (let flags := bump_flags_main items
       if flags.1 then some (v_render (a + 1) 0 0)
       else if flags.2.1 then some (v_render a (b + 1) 0)
       else if flags.2.2 then some (v_render a b (c + 1))
       else some (v_render a b c)) := by
  rw [calculate_new_version]
  have h1 : (v_render a b c).head? = some 'v' := rfl
  rw [h1]
  simp only [reduceIte, strip_v_version_digits, parse_version_digits]

end VersionLemmas

section LineLemmas

theorem split_lines_ne_nil (s : Str) (h : s ≠ []) : split_lines s ≠ [] := by
  cases s with
  | nil => exact absurd rfl h
  | cons c r =>
    by_cases hc : c = '\n'
    · simp [split_lines, hc]
    · simp only [split_lines, if_neg hc]
      cases split_lines r <;> simp

theorem split_lines_append_line (l r : Str) (hl : '\n' ∉ l) :
    split_lines (l ++ '\n' :: r) = l :: split_lines r := by
  induction l with
  | nil => simp [split_lines]
  | cons c t ih =>
    have hc : c ≠ '\n' := fun h => hl (by simp [h])
    have ht : '\n' ∉ t := fun h => hl (List.mem_cons_of_mem _ h)
    rw [List.cons_append, split_lines, if_neg hc, ih ht]

theorem split_lines_no_nl (l : Str) (hnl : '\n' ∉ l) (hne : l ≠ []) :
    split_lines l = [l] := by
  induction l with
  | nil => exact absurd rfl hne
  | cons c t ih =>
    have hc : c ≠ '\n' := fun h => hnl (by simp [h])
    have ht : '\n' ∉ t := fun h => hnl (List.mem_cons_of_mem _ h)
    rw [split_lines, if_neg hc]
    cases htn : t with
    | nil => simp [split_lines]
    | cons x y =>
      rw [← htn, ih ht (by simp [htn])]

theorem count_nl_append (a b : Str) : count_nl (a ++ b) = count_nl a + count_nl b := by
  induction a with
  | nil => simp [count_nl]
  | cons c t ih => rw [List.cons_append, count_nl, count_nl, ih]; omega

theorem length_split_lines (s : Str) :
    (split_lines s).length =
      count_nl s + (if s ≠ [] ∧ s.getLast? ≠ some '\n' then 1 else 0) := by
  induction s with
  | nil => simp [split_lines, count_nl]
  | cons c t ih =>
    by_cases hc : c = '\n'
    · rw [split_lines, if_pos hc, count_nl, if_pos hc]
      cases htn : t with
      | nil => simp [split_lines, count_nl, hc]
      | cons x y =>
        rw [← htn]
        have hlast : (c :: t).getLast? = t.getLast? := by
          rw [htn]; simp [List.getLast?_cons]
        simp only [List.length_cons, ih, hlast]
        have : t ≠ [] := by simp [htn]
        simp only [ne_eq, this, not_false_eq_true, true_and, List.cons_ne_nil]
        omega
    · rw [split_lines, if_neg hc, count_nl, if_neg hc]
      cases htn : t with
      | nil => simp [split_lines, count_nl, hc]
      | cons x y =>
        rw [← htn]
        have htne : t ≠ [] := by simp [htn]
        have hsp := split_lines_ne_nil t htne
        have hlast : (c :: t).getLast? = t.getLast? := by
          rw [htn]; simp [List.getLast?_cons]
        obtain ⟨p, ps, hps⟩ := List.exists_cons_of_ne_nil hsp
        rw [hps]
        simp only [List.length_cons, hlast]
        have := ih
        rw [hps] at this
        simp only [List.length_cons] at this
        simp only [ne_eq, htne, not_false_eq_true, true_and, List.cons_ne_nil] at this ⊢
        omega

theorem length_split_lines_append (a b : Str) (hb : b ≠ []) :
    (split_lines (a ++ b)).length = count_nl a + (split_lines b).length := by
  induction a with
  | nil => simp [count_nl]
  | cons c t ih =>
    by_cases hc : c = '\n'
    · rw [List.cons_append, split_lines, if_pos hc, count_nl, if_pos hc]
      simp only [List.length_cons, ih]
      omega
    · rw [List.cons_append, split_lines, if_neg hc, count_nl, if_neg hc]
      have htb : t ++ b ≠ [] := fun h => hb (List.append_eq_nil.1 h).2
      have hsp := split_lines_ne_nil (t ++ b) htb
      obtain ⟨p, ps, hps⟩ := List.exists_cons_of_ne_nil hsp
      rw [hps]
      have := ih
      rw [hps] at this
      simp only [List.length_cons] at this ⊢
      omega

theorem split_lines_append_mid_nl (x y : Str) :
    split_lines (x ++ '\n' :: y) = split_lines (x ++ ['\n']) ++ split_lines y := by
  induction x with
  | nil => simp [split_lines]
  | cons c t ih =>
    by_cases hc : c = '\n'
    · rw [List.cons_append, split_lines, if_pos hc, List.cons_append, split_lines,
        if_pos hc, ih, List.cons_append]
    · rw [List.cons_append, split_lines, if_neg hc, List.cons_append, split_lines,
        if_neg hc, ih]
      have h1 : t ++ ['\n'] ≠ [] := fun h => by simp at h
      obtain ⟨p, ps, hps⟩ := List.exists_cons_of_ne_nil (split_lines_ne_nil _ h1)
      rw [hps]
      simp

theorem count_nl_eq_zero (l : Str) (h : '\n' ∉ l) : count_nl l = 0 := by
  induction l with
  | nil => rfl
  | cons c r ih =>
    have hc : c ≠ '\n' := fun hc => h (by simp [hc])
    rw [count_nl, if_neg hc, ih (fun hm => h (List.mem_cons_of_mem _ hm))]

theorem join_nl_cons_of_ne_nil (l : Str) (ls : List Str) (h : ls ≠ []) :
    join_nl (l :: ls) = l ++ '\n' :: join_nl ls := by
  cases ls with
  | nil => exact absurd rfl h
  | cons x y => rfl

theorem join_nl_append_of_ne_nil (xs ys : List Str) (hx : xs ≠ []) (hy : ys ≠ []) :
    join_nl (xs ++ ys) = join_nl xs ++ '\n' :: join_nl ys := by
  induction xs with
  | nil => exact absurd rfl hx
  | cons x t ih =>
    cases t with
    | nil =>
      rw [List.singleton_append, join_nl_cons_of_ne_nil _ _ hy]
      rfl
    | cons a b =>
      rw [List.cons_append, join_nl_cons_of_ne_nil _ _ (by simp),
        join_nl_cons_of_ne_nil _ _ (by simp), ih (by simp)]
      simp

theorem count_nl_join_nl (ls : List Str) (hne : ls ≠ [])
    (hnl : ∀ l ∈ ls, '\n' ∉ l) : count_nl (join_nl ls) + 1 = ls.length := by
  induction ls with
  | nil => exact absurd rfl hne
  | cons l t ih =>
    cases t with
    | nil =>
      simp [join_nl, count_nl_eq_zero l (hnl l (by simp))]
    | cons a b =>
      rw [join_nl_cons_of_ne_nil _ _ (by simp), count_nl_append, count_nl, if_pos rfl]
      have hl := count_nl_eq_zero l (hnl l (by simp))
      have := ih (by simp) (fun x hx => hnl x (List.mem_cons_of_mem _ hx))
      simp only [List.length_cons] at this ⊢
      omega

theorem join_nl_ne_nil (ls : List Str) (hne : ls ≠ [])
    (hlast : ls.getLast? ≠ some []) : join_nl ls ≠ [] := by
  cases ls with
  | nil => exact absurd rfl hne
  | cons l t =>
    cases t with
    | nil =>
      intro h
      exact hlast (by simp [join_nl] at h; simp [h])
    | cons a b =>
      rw [join_nl_cons_of_ne_nil _ _ (by simp)]
      intro h
      rcases List.append_eq_nil.1 h with ⟨_, h2⟩
      simp at h2

theorem split_lines_join_nl (ls : List Str) (hne : ls ≠ [])
    (hnl : ∀ l ∈ ls, '\n' ∉ l) :
    split_lines (join_nl ls) =
      if ls.getLast? = some [] then ls.dropLast else ls := by
  induction ls with
  | nil => exact absurd rfl hne
  | cons l t ih =>
    cases t with
    | nil =>
      by_cases hl : l = []
      · simp [join_nl, hl, split_lines]
      · rw [show join_nl [l] = l from rfl,
          split_lines_no_nl l (hnl l (by simp)) hl]
        simp [hl]
    | cons a b =>
      rw [join_nl_cons_of_ne_nil _ _ (by simp),
        split_lines_append_line _ _ (hnl l (by simp)),
        ih (by simp) (fun x hx => hnl x (List.mem_cons_of_mem _ hx))]
      have hlast : (l :: a :: b).getLast? = (a :: b).getLast? := by
        simp [List.getLast?_cons]
      rw [hlast]
      by_cases hc : (a :: b).getLast? = some ([] : Str)
      · simp [hc, List.dropLast_cons_of_ne_nil]
      · simp [hc]

theorem mem_split_lines_no_nl (s : Str) : ∀ l ∈ split_lines s, '\n' ∉ l := by
  induction s with
  | nil => simp [split_lines]
  | cons c t ih =>
    by_cases hc : c = '\n'
    · rw [split_lines, if_pos hc]
      intro l hl
      rcases List.mem_cons.1 hl with h | h
      · simp [h]
      · exact ih l h
    · rw [split_lines, if_neg hc]
      cases hsp : split_lines t with
      | nil =>
        intro l hl
        rcases List.mem_cons.1 hl with h | h
        · intro hmem
          rw [h] at hmem
          rcases List.mem_cons.1 hmem with h2 | h2
          · exact hc h2.symm
          · simp at h2
        · simp at h
      | cons p ps =>
        intro l hl
        rcases List.mem_cons.1 hl with h | h
        · intro hmem
          rw [h] at hmem
          rcases List.mem_cons.1 hmem with h2 | h2
          · exact hc h2.symm
          · exact ih p (by simp [hsp]) h2
        · exact ih l (by simp [hsp, List.mem_cons_of_mem _ h])

theorem insert_above_found (e : Str) (A : List Str)
    (hA : ∀ l ∈ A, starts_hh l = false) (hd : Str) (t : List Str)
    (hhd : starts_hh hd = true) :
    insert_above e (A ++ hd :: t) = some (A ++ e :: hd :: t) := by
  induction A with
  | nil => simp [insert_above, hhd]
  | cons l ls ih =>
    have hl : starts_hh l = false := hA l (by simp)
    rw [List.cons_append, insert_above, hl]
    simp only [Bool.false_eq_true, if_false]
    rw [ih (fun x hx => hA x (List.mem_cons_of_mem _ hx))]
    rfl

theorem insert_above_none (e : Str) (ls : List Str)
    (h : ∀ l ∈ ls, starts_hh l = false) : insert_above e ls = none := by
  induction ls with
  | nil => rfl
  | cons l t ih =>
    rw [insert_above, h l (by simp)]
    simp only [Bool.false_eq_true, if_false]
    rw [ih (fun x hx => h x (List.mem_cons_of_mem _ hx))]
    rfl

theorem insert_below_found (e : Str) (A : List Str)
    (hA : ∀ l ∈ A, starts_hh l = false) (hd : Str) (t : List Str)
    (hhd : starts_hh hd = true) :
    insert_below e (A ++ hd :: t) = some (A ++ hd :: e :: t) := by
  induction A with
  | nil => simp [insert_below, hhd]
  | cons l ls ih =>
    have hl : starts_hh l = false := hA l (by simp)
    rw [List.cons_append, insert_below, hl]
    simp only [Bool.false_eq_true, if_false]
    rw [ih (fun x hx => hA x (List.mem_cons_of_mem _ hx))]
    rfl

theorem insert_below_none (e : Str) (ls : List Str)
    (h : ∀ l ∈ ls, starts_hh l = false) : insert_below e ls = none := by
  induction ls with
  | nil => rfl
  | cons l t ih =>
    rw [insert_below, h l (by simp)]
    simp only [Bool.false_eq_true, if_false]
    rw [ih (fun x hx => h x (List.mem_cons_of_mem _ hx))]
    rfl

end LineLemmas

section MergerLemmas

theorem split_lines_join_nl_append (ls : List Str) (r : Str) (hne : ls ≠ [])
    (hnl : ∀ l ∈ ls, '\n' ∉ l) :
    split_lines (join_nl ls ++ '\n' :: r) = ls ++ split_lines r := by
  induction ls with
  | nil => exact absurd rfl hne
  | cons l t ih =>
    cases t with
    | nil =>
      show split_lines (l ++ '\n' :: r) = [l] ++ split_lines r
      rw [split_lines_append_line l r (hnl l (by simp))]
      rfl
    | cons a b =>
      rw [join_nl_cons_of_ne_nil _ _ (by simp),
        show (l ++ '\n' :: join_nl (a :: b)) ++ '\n' :: r =
          l ++ '\n' :: (join_nl (a :: b) ++ '\n' :: r) by simp,
        split_lines_append_line l _ (hnl l (by simp)),
        ih (by simp) (fun x hx => hnl x (List.mem_cons_of_mem _ hx))]
      rfl

theorem getLast?_append_right {α : Type} (xs ys : List α) (hy : ys ≠ []) :
    (xs ++ ys).getLast? = ys.getLast? := by
  rw [List.getLast?_append]
  obtain ⟨z, hz⟩ := Option.isSome_iff_exists.1 (List.getLast?_isSome.2 hy)
  rw [hz]
  rfl

/-- Joining with the pre-joined entry as a single element equals joining the
flattened list: `"\n".join(A + [e] + B)` with `e = "\n".join(eLines)` has the
same characters as `"\n".join(A + eLines + B)`. -/
theorem join_nl_flatten (A B eLines : List Str) (he : eLines ≠ []) :
    join_nl (A ++ join_nl eLines :: B) = join_nl (A ++ (eLines ++ B)) := by
  cases hB : B with
  | nil =>
    cases hA : A with
    | nil => simp [join_nl]
    | cons a as =>
      rw [← hA, join_nl_append_of_ne_nil A [join_nl eLines] (by simp [hA]) (by simp),
        List.append_nil,
        join_nl_append_of_ne_nil A eLines (by simp [hA]) he]
      rfl
  | cons b bs =>
    have hBne : B ≠ [] := by simp [hB]
    rw [← hB]
    have hmid : join_nl (join_nl eLines :: B) = join_nl (eLines ++ B) := by
      rw [join_nl_cons_of_ne_nil _ _ hBne, join_nl_append_of_ne_nil eLines B he hBne]
    cases hA : A with
    | nil => simpa using hmid
    | cons a as =>
      rw [← hA, join_nl_append_of_ne_nil A (join_nl eLines :: B) (by simp [hA]) (by simp),
        join_nl_append_of_ne_nil A (eLines ++ B) (by simp [hA])
          (fun h => he (List.append_eq_nil.1 h).1), hmid]

end MergerLemmas

section ParserLemmas

theorem takeWhile_append_all (p : Char → Bool) (d : Str)
    (hd : ∀ x ∈ d, p x = true) (c : Char) (hc : p c = false) (rest : Str) :
    (d ++ c :: rest).takeWhile p = d ∧ (d ++ c :: rest).dropWhile p = c :: rest := by
  induction d with
  | nil => simp [List.takeWhile_cons, List.dropWhile_cons, hc]
  | cons x t ih =>
    have hx : p x = true := hd x (by simp)
    obtain ⟨h1, h2⟩ := ih (fun y hy => hd y (List.mem_cons_of_mem _ hy))
    constructor
    · rw [List.cons_append, List.takeWhile_cons, hx, if_pos rfl, h1]
    · rw [List.cons_append, List.dropWhile_cons, hx, if_pos rfl, h2]

theorem dropWhile_space_cons (c : Char) (rest : Str) (hc : is_py_space c = false) :
    (c :: rest).dropWhile is_py_space = c :: rest := by
  rw [List.dropWhile_cons, hc]
  simp

theorem expect_cons (c : Char) (rest : Str) : expect c (c :: rest) = some rest := by
  simp [expect]

theorem dval_lt_ten (k : Nat) (h : k < 10) : dval (digit_char k) = k :=
  dval_digit_char k h

theorem parse2_pad2 (n : Nat) (h : n ≤ 99) (rest : Str) :
    parse2 (pad2 n ++ rest) = some (n, rest) := by
  by_cases h10 : n < 10
  · rw [pad2, if_pos h10]
    show parse2 ('0' :: digit_char n :: rest) = some (n, rest)
    rw [parse2]
    rw [show is_digit '0' = true from by decide, is_digit_digit_char n h10]
    simp [dval_digit_char n h10, show dval '0' = 0 from by decide]
  · rw [pad2, if_neg h10]
    show parse2 (digit_char (n / 10) :: digit_char (n % 10) :: rest) = some (n, rest)
    have hq : n / 10 < 10 := by omega
    have hr : n % 10 < 10 := Nat.mod_lt _ (by omega)
    rw [parse2, is_digit_digit_char _ hq, is_digit_digit_char _ hr]
    simp [dval_digit_char _ hq, dval_digit_char _ hr]
    omega

theorem parse4_pad4 (n : Nat) (h : n ≤ 9999) (rest : Str) :
    parse4 (pad4 n ++ rest) = some (n, rest) := by
  rw [pad4]
  show parse4 (digit_char (n / 1000) :: digit_char (n / 100 % 10) ::
    digit_char (n / 10 % 10) :: digit_char (n % 10) :: rest) = some (n, rest)
  have h1 : n / 1000 < 10 := by omega
  have h2 : n / 100 % 10 < 10 := Nat.mod_lt _ (by omega)
  have h3 : n / 10 % 10 < 10 := Nat.mod_lt _ (by omega)
  have h4 : n % 10 < 10 := Nat.mod_lt _ (by omega)
  rw [parse4, is_digit_digit_char _ h1, is_digit_digit_char _ h2,
    is_digit_digit_char _ h3, is_digit_digit_char _ h4]
  simp [dval_digit_char _ h1, dval_digit_char _ h2, dval_digit_char _ h3,
    dval_digit_char _ h4]
  omega

theorem days_in_month_le (y mo : Nat) : days_in_month y mo ≤ 31 := by
  rw [days_in_month]
  split
  · split <;> omega
  · split <;> omega

/-- Numeric bounds extracted from a valid datetime. -/
theorem dt_valid_bounds (dt : DateTime) (h : dt_valid dt = true) :
    1 ≤ dt.year ∧ dt.year ≤ 9999 ∧ 1 ≤ dt.month ∧ dt.month ≤ 12 ∧
    1 ≤ dt.day ∧ dt.day ≤ 31 ∧ dt.hour ≤ 23 ∧ dt.minute ≤ 59 ∧ dt.second ≤ 59 := by
  rw [dt_valid] at h
  simp only [Bool.and_eq_true, decide_eq_true_eq] at h
  have := days_in_month_le dt.year dt.month
  omega

theorem parse_iso_digits_render (dt : DateTime) (h : dt_valid dt = true) (rest : Str) :
    parse_iso_digits (iso_render dt ++ rest) =
      some ((dt.year, dt.month, dt.day, dt.hour, dt.minute, dt.second), rest) := by
  obtain ⟨hy1, hy2, hm1, hm2, hd1, hd2, hh, hmi, hs⟩ := dt_valid_bounds dt h
  have hshape : iso_render dt ++ rest =
      pad4 dt.year ++ '-' :: (pad2 dt.month ++ '-' :: (pad2 dt.day ++
        'T' :: (pad2 dt.hour ++ ':' :: (pad2 dt.minute ++ ':' ::
          (pad2 dt.second ++ rest))))) := by
    simp [iso_render, List.append_assoc]
  rw [hshape, parse_iso_digits]
  simp [parse4_pad4 dt.year (by omega), parse2_pad2 dt.month (by omega),
    parse2_pad2 dt.day (by omega), parse2_pad2 dt.hour (by omega),
    parse2_pad2 dt.minute (by omega), parse2_pad2 dt.second (by omega),
    expect_cons]

theorem dropWhile_cons_true (p : Char → Bool) (c : Char) (rest : Str)
    (hc : p c = true) : (c :: rest).dropWhile p = rest.dropWhile p := by
  rw [List.dropWhile_cons, hc]
  simp

theorem dropWhile_cons_false (p : Char → Bool) (c : Char) (rest : Str)
    (hc : p c = false) : (c :: rest).dropWhile p = c :: rest := by
  rw [List.dropWhile_cons, hc]
  simp

/-- `changelog_regex` on a line of the rendered shape, with the parenthesized
text abstract: the match succeeds exactly when the text after `(` parses as
an ISO date-time followed by `)`. -/
theorem scan_header_parts_some (d1 d2 d3 after : Str) (iso : Iso6) (tail : Str)
    (h1 : ∀ x ∈ d1, is_digit x = true) (hne1 : d1 ≠ [])
    (h2 : ∀ x ∈ d2, is_digit x = true) (hne2 : d2 ≠ [])
    (h3 : ∀ x ∈ d3, is_digit x = true) (hne3 : d3 ≠ [])
    (hiso : parse_iso_digits after = some (iso, ')' :: tail)) :
    scan_header ('#' :: '#' :: ' ' :: 'v' ::
        (d1 ++ '.' :: (d2 ++ '.' :: (d3 ++ ' ' :: '-' :: ' ' :: '(' :: after)))) =
      some ⟨'v' :: (d1 ++ '.' :: (d2 ++ '.' :: d3)),
            (digits_to_nat d1, digits_to_nat d2, digits_to_nat d3), iso⟩ := by
  obtain ⟨ht1, hd1⟩ := takeWhile_append_all is_digit d1 h1 '.' (by decide)
    (d2 ++ '.' :: (d3 ++ ' ' :: '-' :: ' ' :: '(' :: after))
  obtain ⟨ht2, hd2⟩ := takeWhile_append_all is_digit d2 h2 '.' (by decide)
    (d3 ++ ' ' :: '-' :: ' ' :: '(' :: after)
  obtain ⟨ht3, hd3⟩ := takeWhile_append_all is_digit d3 h3 ' ' (by decide)
    ('-' :: ' ' :: '(' :: after)
  rw [scan_header, expect_cons]
  simp only [Option.bind_eq_bind, Option.some_bind]
  rw [expect_cons]
  simp only [Option.bind_eq_bind, Option.some_bind]
  rw [dropWhile_cons_true is_py_space ' ' _ (by decide),
    dropWhile_cons_false is_py_space 'v' _ (by decide), expect_cons]
  simp only [Option.bind_eq_bind, Option.some_bind]
  rw [ht1, hd1, if_neg hne1, expect_cons]
  simp only [Option.bind_eq_bind, Option.some_bind]
  rw [ht2, hd2, if_neg hne2, expect_cons]
  simp only [Option.bind_eq_bind, Option.some_bind]
  rw [ht3, hd3, if_neg hne3,
    dropWhile_cons_true is_py_space ' ' _ (by decide),
    dropWhile_cons_false is_py_space '-' _ (by decide), expect_cons]
  simp only [Option.bind_eq_bind, Option.some_bind]
  rw [dropWhile_cons_true is_py_space ' ' _ (by decide),
    dropWhile_cons_false is_py_space '(' _ (by decide), expect_cons]
  simp only [Option.bind_eq_bind, Option.some_bind]
  rw [hiso]
  simp only [Option.bind_eq_bind, Option.some_bind]
  rw [expect_cons]
  simp only [Option.bind_eq_bind, Option.some_bind]

/-- `changelog_regex` on the same shape fails when the parenthesized text
does not parse as an ISO date-time. -/
theorem scan_header_parts_none (d1 d2 d3 after : Str)
    (h1 : ∀ x ∈ d1, is_digit x = true) (hne1 : d1 ≠ [])
    (h2 : ∀ x ∈ d2, is_digit x = true) (hne2 : d2 ≠ [])
    (h3 : ∀ x ∈ d3, is_digit x = true) (hne3 : d3 ≠ [])
    (hiso : parse_iso_digits after = none) :
    scan_header ('#' :: '#' :: ' ' :: 'v' ::
        (d1 ++ '.' :: (d2 ++ '.' :: (d3 ++ ' ' :: '-' :: ' ' :: '(' :: after)))) =
      none := by
  obtain ⟨ht1, hd1⟩ := takeWhile_append_all is_digit d1 h1 '.' (by decide)
    (d2 ++ '.' :: (d3 ++ ' ' :: '-' :: ' ' :: '(' :: after))
  obtain ⟨ht2, hd2⟩ := takeWhile_append_all is_digit d2 h2 '.' (by decide)
    (d3 ++ ' ' :: '-' :: ' ' :: '(' :: after)
  obtain ⟨ht3, hd3⟩ := takeWhile_append_all is_digit d3 h3 ' ' (by decide)
    ('-' :: ' ' :: '(' :: after)
  rw [scan_header, expect_cons]
  simp only [Option.bind_eq_bind, Option.some_bind]
  rw [expect_cons]
  simp only [Option.bind_eq_bind, Option.some_bind]
  rw [dropWhile_cons_true is_py_space ' ' _ (by decide),
    dropWhile_cons_false is_py_space 'v' _ (by decide), expect_cons]
  simp only [Option.bind_eq_bind, Option.some_bind]
  rw [ht1, hd1, if_neg hne1, expect_cons]
  simp only [Option.bind_eq_bind, Option.some_bind]
  rw [ht2, hd2, if_neg hne2, expect_cons]
  simp only [Option.bind_eq_bind, Option.some_bind]
  rw [ht3, hd3, if_neg hne3,
    dropWhile_cons_true is_py_space ' ' _ (by decide),
    dropWhile_cons_false is_py_space '-' _ (by decide), expect_cons]
  simp only [Option.bind_eq_bind, Option.some_bind]
  rw [dropWhile_cons_true is_py_space ' ' _ (by decide),
    dropWhile_cons_false is_py_space '(' _ (by decide), expect_cons]
  simp only [Option.bind_eq_bind, Option.some_bind]
  rw [hiso]
  rfl

theorem expect_ne (c x : Char) (rest : Str) (h : x ≠ c) :
    expect c (x :: rest) = none := by
  simp [expect, h]

theorem nat_to_dec_mem_digit (n : Nat) : ∀ x ∈ nat_to_dec n, is_digit x = true := by
  have h := nat_to_dec_all_digit n
  rw [List.all_eq_true] at h
  exact h

theorem digit_char_is_digit (k : Nat) : is_digit (digit_char k) = true := by
  match k with
  | 0 | 1 | 2 | 3 | 4 | 5 | 6 | 7 | 8 => decide
  | n + 9 => rfl

theorem pad2_all_digit (n : Nat) : ∀ x ∈ pad2 n, is_digit x = true := by
  rw [pad2]
  split <;> intro x hx <;> rcases List.mem_cons.1 hx with h | h
  · rw [h]; decide
  · rcases List.mem_cons.1 h with h2 | h2
    · rw [h2]; exact digit_char_is_digit n
    · simp at h2
  · rw [h]; exact digit_char_is_digit _
  · rcases List.mem_cons.1 h with h2 | h2
    · rw [h2]; exact digit_char_is_digit _
    · simp at h2

theorem pad4_all_digit (n : Nat) : ∀ x ∈ pad4 n, is_digit x = true := by
  rw [pad4]
  intro x hx
  rcases List.mem_cons.1 hx with h | h
  · rw [h]; exact digit_char_is_digit _
  · rcases List.mem_cons.1 h with h | h
    · rw [h]; exact digit_char_is_digit _
    · rcases List.mem_cons.1 h with h | h
      · rw [h]; exact digit_char_is_digit _
      · rcases List.mem_cons.1 h with h | h
        · rw [h]; exact digit_char_is_digit _
        · simp at h

theorem no_nl_of_digit (s : Str) (h : ∀ x ∈ s, is_digit x = true) : '\n' ∉ s := by
  intro hmem
  have := h _ hmem
  simp [is_digit] at this

theorem pad2_no_nl (n : Nat) : '\n' ∉ pad2 n :=
  no_nl_of_digit _ (pad2_all_digit n)

theorem pad4_no_nl (n : Nat) : '\n' ∉ pad4 n :=
  no_nl_of_digit _ (pad4_all_digit n)

theorem iso_render_no_nl (dt : DateTime) : '\n' ∉ iso_render dt := by
  simp [iso_render, List.mem_append, List.mem_cons, pad2_no_nl, pad4_no_nl]

theorem version_digits_no_nl (a b c : Nat) : '\n' ∉ version_digits a b c := by
  intro hmem
  rw [version_digits] at hmem
  rcases List.mem_append.1 hmem with h | h
  · exact nat_to_dec_no_nl a h
  · rcases List.mem_cons.1 h with h | h
    · exact absurd h (by decide)
    · rcases List.mem_append.1 h with h | h
      · exact nat_to_dec_no_nl b h
      · rcases List.mem_cons.1 h with h | h
        · exact absurd h (by decide)
        · exact nat_to_dec_no_nl c h

theorem version_digits_digit_or_dot (a b c : Nat) :
    ∀ x ∈ version_digits a b c, (is_digit x || x = '.') = true := by
  intro x hx
  rw [version_digits] at hx
  rcases List.mem_append.1 hx with h | h
  · simp [nat_to_dec_mem_digit a x h]
  · rcases List.mem_cons.1 h with h | h
    · simp [h]
    · rcases List.mem_append.1 h with h | h
      · simp [nat_to_dec_mem_digit b x h]
      · rcases List.mem_cons.1 h with h | h
        · simp [h]
        · simp [nat_to_dec_mem_digit c x h]

/-- The rendered header, re-expressed with its leading characters explicit. -/
theorem shape_dt_sep (a b c : Nat) (X : Str) :
    str "## v" ++ version_digits a b c ++ str " - (" ++ X ++ str ")" =
      '#' :: '#' :: ' ' :: 'v' :: (nat_to_dec a ++ '.' :: (nat_to_dec b ++ '.' ::
        (nat_to_dec c ++ ' ' :: '-' :: ' ' :: '(' :: (X ++ [')'])))) := by
  simp [show str "## v" = ['#', '#', ' ', 'v'] from rfl,
    show str " - (" = [' ', '-', ' ', '('] from rfl,
    show str ")" = [')'] from rfl, version_digits, List.append_assoc]

/-- The `main.py` header grammar, re-expressed with its leading characters
explicit. -/
theorem shape_main (a b c : Nat) (X : Str) :
    str "## v" ++ version_digits a b c ++ str " (" ++ X ++ str ")" =
      '#' :: '#' :: ' ' :: 'v' ::
        (version_digits a b c ++ ' ' :: '(' :: (X ++ [')'])) := by
  simp [show str "## v" = ['#', '#', ' ', 'v'] from rfl,
    show str " (" = [' ', '('] from rfl,
    show str ")" = [')'] from rfl, List.append_assoc]

/-- `changelog_regex` accepts the canonically rendered date-time header and
recovers the version numbers and the six time fields. -/
theorem scan_header_render (a b c : Nat) (dt : DateTime) (h : dt_valid dt = true) :
    scan_header (str "## v" ++ version_digits a b c ++ str " - (" ++
        iso_render dt ++ str ")") =
      some ⟨'v' :: version_digits a b c, (a, b, c),
            (dt.year, dt.month, dt.day, dt.hour, dt.minute, dt.second)⟩ := by
  rw [shape_dt_sep]
  rw [scan_header_parts_some (nat_to_dec a) (nat_to_dec b) (nat_to_dec c)
    (iso_render dt ++ [')']) (dt.year, dt.month, dt.day, dt.hour, dt.minute, dt.second)
    [] (nat_to_dec_mem_digit a) (nat_to_dec_ne_nil a)
    (nat_to_dec_mem_digit b) (nat_to_dec_ne_nil b)
    (nat_to_dec_mem_digit c) (nat_to_dec_ne_nil c)
    (parse_iso_digits_render dt h [')'])]
  simp [version_digits, digits_to_nat_nat_to_dec]

theorem parse_iso_digits_date_only (y mo d : Nat) (hy : y ≤ 9999) (hmo : mo ≤ 99)
    (hdd : d ≤ 99) (tail : Str) :
    parse_iso_digits (date_render y mo d ++ ')' :: tail) = none := by
  have hshape : date_render y mo d ++ ')' :: tail =
      pad4 y ++ '-' :: (pad2 mo ++ '-' :: (pad2 d ++ ')' :: tail)) := by
    simp [date_render, List.append_assoc]
  have hT : ∀ rest', expect 'T' (')' :: rest') = none :=
    fun rest' => expect_ne 'T' ')' rest' (by decide)
  rw [hshape, parse_iso_digits]
  simp [parse4_pad4 y hy, parse2_pad2 mo hmo, parse2_pad2 d hdd, expect_cons, hT]

/-- `changelog_regex` rejects a header whose parenthesized value is in
date-only form. -/
theorem scan_header_date_only (a b c y mo d : Nat) (hy : y ≤ 9999) (hmo : mo ≤ 99)
    (hdd : d ≤ 99) :
    scan_header (str "## v" ++ version_digits a b c ++ str " - (" ++
        date_render y mo d ++ str ")") = none := by
  rw [shape_dt_sep]
  exact scan_header_parts_none (nat_to_dec a) (nat_to_dec b) (nat_to_dec c)
    (date_render y mo d ++ [')'])
    (nat_to_dec_mem_digit a) (nat_to_dec_ne_nil a)
    (nat_to_dec_mem_digit b) (nat_to_dec_ne_nil b)
    (nat_to_dec_mem_digit c) (nat_to_dec_ne_nil c)
    (parse_iso_digits_date_only y mo d hy hmo hdd [])

/-- `main.parse_release_line` on a line of its grammar with the parenthesized
text abstract: success is decided by the 10-character date parse, the closing
parenthesis, and the end of the line. -/
theorem parse_release_line_date (vd : Str)
    (hvd : ∀ x ∈ vd, (is_digit x || x = '.') = true) (hne : vd ≠ [])
    (y mo d : Nat) (hv : dt_valid ⟨y, mo, d, 0, 0, 0⟩ = true) :
    parse_release_line ('#' :: '#' :: ' ' :: 'v' ::
        (vd ++ ' ' :: '(' :: (date_render y mo d ++ [')']))) =
      some ('v' :: vd, ⟨y, mo, d, 0, 0, 0⟩) := by
  have hb := dt_valid_bounds ⟨y, mo, d, 0, 0, 0⟩ hv
  dsimp only at hb
  obtain ⟨hy1, hy2, hm1, hm2, hd1, hd2, -, -, -⟩ := hb
  obtain ⟨htv, hdv⟩ := takeWhile_append_all (fun ch => is_digit ch || ch = '.') vd hvd
    ' ' (by decide) ('(' :: (date_render y mo d ++ [')']))
  have hshape : date_render y mo d ++ ([')'] : Str) =
      pad4 y ++ '-' :: (pad2 mo ++ '-' :: (pad2 d ++ [')'])) := by
    simp [date_render, List.append_assoc]
  rw [parse_release_line, expect_cons]
  simp only [Option.bind_eq_bind, Option.some_bind]
  rw [expect_cons]
  simp only [Option.bind_eq_bind, Option.some_bind]
  rw [dropWhile_cons_true is_py_space ' ' _ (by decide),
    dropWhile_cons_false is_py_space 'v' _ (by decide), expect_cons]
  simp only [Option.bind_eq_bind, Option.some_bind]
  rw [htv, hdv, if_neg hne,
    dropWhile_cons_true is_py_space ' ' _ (by decide),
    dropWhile_cons_false is_py_space '(' _ (by decide), expect_cons]
  simp only [Option.bind_eq_bind, Option.some_bind]
  rw [hshape]
  simp [parse4_pad4 y (by omega), parse2_pad2 mo (by omega), parse2_pad2 d (by omega),
    expect_cons, from_iso, hv]

/-- `main.parse_release_line` rejects a header whose parenthesized value is in
date-time form: the closing parenthesis is demanded where `T` stands. -/
theorem parse_release_line_datetime_none (vd : Str)
    (hvd : ∀ x ∈ vd, (is_digit x || x = '.') = true) (hne : vd ≠ [])
    (dt : DateTime) (hdt : dt_valid dt = true) :
    parse_release_line ('#' :: '#' :: ' ' :: 'v' ::
        (vd ++ ' ' :: '(' :: (iso_render dt ++ [')']))) = none := by
  obtain ⟨hy1, hy2, hm1, hm2, hd1, hd2, hh, hmi, hs⟩ := dt_valid_bounds dt hdt
  obtain ⟨htv, hdv⟩ := takeWhile_append_all (fun ch => is_digit ch || ch = '.') vd hvd
    ' ' (by decide) ('(' :: (iso_render dt ++ [')']))
  have hshape : iso_render dt ++ ([')'] : Str) =
      pad4 dt.year ++ '-' :: (pad2 dt.month ++ '-' :: (pad2 dt.day ++
        'T' :: (pad2 dt.hour ++ ':' :: (pad2 dt.minute ++ ':' ::
          (pad2 dt.second ++ [')']))))) := by
    simp [iso_render, List.append_assoc]
  have hT : ∀ rest', expect ')' ('T' :: rest') = none :=
    fun rest' => expect_ne ')' 'T' rest' (by decide)
  rw [parse_release_line, expect_cons]
  simp only [Option.bind_eq_bind, Option.some_bind]
  rw [expect_cons]
  simp only [Option.bind_eq_bind, Option.some_bind]
  rw [dropWhile_cons_true is_py_space ' ' _ (by decide),
    dropWhile_cons_false is_py_space 'v' _ (by decide), expect_cons]
  simp only [Option.bind_eq_bind, Option.some_bind]
  rw [htv, hdv, if_neg hne,
    dropWhile_cons_true is_py_space ' ' _ (by decide),
    dropWhile_cons_false is_py_space '(' _ (by decide), expect_cons]
  simp only [Option.bind_eq_bind, Option.some_bind]
  rw [hshape]
  simp [parse4_pad4 dt.year (by omega), parse2_pad2 dt.month (by omega),
    parse2_pad2 dt.day (by omega), expect_cons, hT]

end ParserLemmas

section ClaimC4C5

/-- Claim C4, counterexample: at position TOP the entry is concatenated with
no separator, so with the one-line document `"# Changelog\n"` and a one-line
entry the output has 1 line, not 1 + 1: the claimed line-count invariant
fails (the renderer defines no blank separator line). -/
theorem c4_merge_line_count_counterexample :
    (split_lines (create_updated_changelog .TOP
        (str "## v0.0.1 - (2024-01-01T00:00:00)") (str "# Changelog\n"))).length ≠
      (split_lines (str "# Changelog\n")).length +
        (split_lines (str "## v0.0.1 - (2024-01-01T00:00:00)")).length := by
  decide

/-- Claim C4, amended: the renderer defines no blank separator, so the
expected count is input + entry lines, for an entry joined from non-empty
newline-free lines whose last line is non-empty.  ABOVE_PREVIOUS: on a
document whose lines split as `A ++ hd :: t` with `hd` the first `##`-header,
the output lines are exactly the document lines with the entry lines spliced
in before `hd` (verbatim elsewhere, count = input + entry) except that a
trailing empty document line is dropped (count = input + entry − 1); on a
header-free document (the empty one included) the entry lines are prepended
with a separating newline and the invariant holds verbatim.  BELOW_PREVIOUS:
the same splice after `hd` with the same trailing-empty exception; on a
header-free document it degenerates to exactly the BOTTOM output.  TOP: the
entry is prepended with no separator, so the output is exactly the entry
lines on the empty document, and otherwise the entry's last line fuses with
the document's first line, giving count = input + entry − 1.  BOTTOM: the
invariant holds — verbatim — exactly when the document is empty or ends with
a newline; otherwise the junction lines fuse and count = input + entry − 1. -/
theorem c4_merge_line_count_amended
    (eLines : List Str) (changelog : Str)
    (heNe : eLines ≠ []) (heNl : ∀ l ∈ eLines, '\n' ∉ l)
    (heLast : eLines.getLast? ≠ some []) :
    (∀ A hd t, split_lines changelog = A ++ hd :: t →
      (∀ l ∈ A, starts_hh l = false) → starts_hh hd = true →
      split_lines (create_updated_changelog .ABOVE_PREVIOUS (join_nl eLines) changelog) =
        (if (hd :: t).getLast? = some [] then A ++ (eLines ++ (hd :: t).dropLast)
         else A ++ (eLines ++ hd :: t))) ∧
    ((∀ l ∈ split_lines changelog, starts_hh l = false) →
      split_lines (create_updated_changelog .ABOVE_PREVIOUS (join_nl eLines) changelog) =
        eLines ++ split_lines changelog) ∧
    (∀ A hd t, split_lines changelog = A ++ hd :: t →
      (∀ l ∈ A, starts_hh l = false) → starts_hh hd = true →
      split_lines (create_updated_changelog .BELOW_PREVIOUS (join_nl eLines) changelog) =
        (if t.getLast? = some [] then A ++ hd :: (eLines ++ t.dropLast)
         else A ++ hd :: (eLines ++ t))) ∧
    ((∀ l ∈ split_lines changelog, starts_hh l = false) →
      create_updated_changelog .BELOW_PREVIOUS (join_nl eLines) changelog =
        create_updated_changelog .BOTTOM (join_nl eLines) changelog) ∧
    (changelog = [] →
      split_lines (create_updated_changelog .TOP (join_nl eLines) changelog) = eLines) ∧
    (changelog ≠ [] →
      (split_lines (create_updated_changelog .TOP (join_nl eLines) changelog)).length + 1 =
        eLines.length + (split_lines changelog).length) ∧
    (changelog = [] ∨ changelog.getLast? = some '\n' →
      split_lines (create_updated_changelog .BOTTOM (join_nl eLines) changelog) =
        split_lines changelog ++ eLines) ∧
    (changelog ≠ [] ∧ changelog.getLast? ≠ some '\n' →
      (split_lines (create_updated_changelog .BOTTOM (join_nl eLines) changelog)).length + 1 =
        (split_lines changelog).length + eLines.length) := by
  have hentry_lines : split_lines (join_nl eLines) = eLines := by
    rw [split_lines_join_nl eLines heNe heNl, if_neg heLast]
  have hentry_ne : join_nl eLines ≠ [] := join_nl_ne_nil eLines heNe heLast
  have hcount_entry : count_nl (join_nl eLines) + 1 = eLines.length :=
    count_nl_join_nl eLines heNe heNl
  refine ⟨?_, ?_, ?_, ?_, ?_, ?_, ?_, ?_⟩
  · -- ABOVE_PREVIOUS, header present
    intro A hd t hsplit hA hhd
    have hnlA : ∀ l ∈ A, '\n' ∉ l := fun l hl =>
      mem_split_lines_no_nl changelog l (by rw [hsplit]; exact List.mem_append_left _ hl)
    have hnlhd : '\n' ∉ hd :=
      mem_split_lines_no_nl changelog hd
        (by rw [hsplit]; exact List.mem_append_right _ (by simp))
    have hnlt : ∀ l ∈ t, '\n' ∉ l := fun l hl =>
      mem_split_lines_no_nl changelog l
        (by rw [hsplit]; exact List.mem_append_right _ (List.mem_cons_of_mem _ hl))
    have h1 : create_updated_changelog .ABOVE_PREVIOUS (join_nl eLines) changelog =
        join_nl (A ++ (eLines ++ hd :: t)) := by
      simp only [create_updated_changelog]
      rw [hsplit, insert_above_found _ A hA hd t hhd]
      exact join_nl_flatten A (hd :: t) eLines heNe
    rw [h1]
    have hLnl : ∀ l ∈ A ++ (eLines ++ hd :: t), '\n' ∉ l := by
      intro l hl
      rcases List.mem_append.1 hl with h | h
      · exact hnlA l h
      · rcases List.mem_append.1 h with h2 | h2
        · exact heNl l h2
        · rcases List.mem_cons.1 h2 with h3 | h3
          · rw [h3]; exact hnlhd
          · exact hnlt l h3
    rw [split_lines_join_nl _ (by simp) hLnl]
    have hgl : (A ++ (eLines ++ hd :: t)).getLast? = (hd :: t).getLast? := by
      rw [getLast?_append_right A _ (by simp), getLast?_append_right eLines _ (by simp)]
    by_cases hc : (hd :: t).getLast? = some ([] : Str)
    · rw [if_pos (hgl.trans hc), if_pos hc,
        List.dropLast_append_of_ne_nil _ (by simp),
        List.dropLast_append_of_ne_nil _ (by simp)]
    · rw [if_neg (fun h => hc (hgl.symm.trans h)), if_neg hc]
  · -- ABOVE_PREVIOUS, no header line
    intro hnohdr
    have h1 : create_updated_changelog .ABOVE_PREVIOUS (join_nl eLines) changelog =
        join_nl eLines ++ '\n' :: changelog := by
      simp only [create_updated_changelog]
      rw [insert_above_none _ _ hnohdr]
    rw [h1, split_lines_join_nl_append eLines changelog heNe heNl]
  · -- BELOW_PREVIOUS, header present
    intro A hd t hsplit hA hhd
    have hnlA : ∀ l ∈ A, '\n' ∉ l := fun l hl =>
      mem_split_lines_no_nl changelog l (by rw [hsplit]; exact List.mem_append_left _ hl)
    have hnlhd : '\n' ∉ hd :=
      mem_split_lines_no_nl changelog hd
        (by rw [hsplit]; exact List.mem_append_right _ (by simp))
    have hnlt : ∀ l ∈ t, '\n' ∉ l := fun l hl =>
      mem_split_lines_no_nl changelog l
        (by rw [hsplit]; exact List.mem_append_right _ (List.mem_cons_of_mem _ hl))
    have h2 : create_updated_changelog .BELOW_PREVIOUS (join_nl eLines) changelog =
        join_nl (A ++ (hd :: (eLines ++ t))) := by
      simp only [create_updated_changelog]
      rw [hsplit, insert_below_found _ A hA hd t hhd]
      show join_nl (A ++ hd :: join_nl eLines :: t) = _
      rw [show A ++ hd :: join_nl eLines :: t = (A ++ [hd]) ++ join_nl eLines :: t by simp,
        join_nl_flatten (A ++ [hd]) t eLines heNe]
      simp
    rw [h2]
    have hLnl : ∀ l ∈ A ++ (hd :: (eLines ++ t)), '\n' ∉ l := by
      intro l hl
      rcases List.mem_append.1 hl with h | h
      · exact hnlA l h
      · rcases List.mem_cons.1 h with h2 | h2
        · rw [h2]; exact hnlhd
        · rcases List.mem_append.1 h2 with h3 | h3
          · exact heNl l h3
          · exact hnlt l h3
    rw [split_lines_join_nl _ (by simp) hLnl]
    have hgl : (A ++ (hd :: (eLines ++ t))).getLast? = (eLines ++ t).getLast? := by
      rw [getLast?_append_right A _ (by simp),
        show (hd :: (eLines ++ t) : List Str) = [hd] ++ (eLines ++ t) by simp,
        getLast?_append_right [hd] _ (fun h => heNe (List.append_eq_nil.1 h).1)]
    cases htc : t with
    | nil =>
      have hgl2 : (A ++ (hd :: (eLines ++ []))).getLast? = eLines.getLast? := by
        rw [← htc, hgl, htc, List.append_nil]
      rw [if_neg (fun h => heLast (hgl2.symm.trans h))]
      rw [if_neg (by simp)]
    | cons b bs =>
      have htne : t ≠ [] := by simp [htc]
      rw [← htc]
      have hgl2 : (A ++ (hd :: (eLines ++ t))).getLast? = t.getLast? := by
        rw [hgl, getLast?_append_right eLines t htne]
      by_cases hc : t.getLast? = some ([] : Str)
      · rw [if_pos (hgl2.trans hc), if_pos hc,
          List.dropLast_append_of_ne_nil _ (by simp [htc]),
          List.dropLast_cons_of_ne_nil (fun h => htne (List.append_eq_nil.1 h).2),
          List.dropLast_append_of_ne_nil _ htne]
      · rw [if_neg (fun h => hc (hgl2.symm.trans h)), if_neg hc]
  · -- BELOW_PREVIOUS, no header line: literally the BOTTOM output
    intro hnohdr
    simp only [create_updated_changelog]
    rw [insert_below_none _ _ hnohdr]
  · -- TOP on the empty document
    intro hE
    rw [hE]
    show split_lines (join_nl eLines ++ ([] : Str)) = eLines
    rw [List.append_nil, hentry_lines]
  · -- TOP on a non-empty document
    intro hch
    have h3 : create_updated_changelog .TOP (join_nl eLines) changelog =
        join_nl eLines ++ changelog := rfl
    rw [h3, length_split_lines_append _ _ hch]
    omega
  · -- BOTTOM, empty document or document ending in a newline
    intro hdisj
    rcases hdisj with hE | hlast
    · rw [hE]
      show split_lines (([] : Str) ++ join_nl eLines) = split_lines ([] : Str) ++ eLines
      rw [List.nil_append, hentry_lines]
      rfl
    · have hch : changelog ≠ [] := by
        intro hE2
        rw [hE2] at hlast
        simp [List.getLast?] at hlast
      have h4 : create_updated_changelog .BOTTOM (join_nl eLines) changelog =
          changelog ++ join_nl eLines := rfl
      have hgl := List.getLast?_eq_getLast changelog hch
      have hlc : changelog.getLast hch = '\n' := by
        rw [hgl] at hlast
        exact Option.some_injective _ hlast
      have hdoc : changelog.dropLast ++ ['\n'] = changelog := by
        rw [← hlc]
        exact List.dropLast_append_getLast hch
      rw [h4, ← hdoc,
        show (changelog.dropLast ++ ['\n']) ++ join_nl eLines =
          changelog.dropLast ++ '\n' :: join_nl eLines by simp,
        split_lines_append_mid_nl, hentry_lines, hdoc]
  · -- BOTTOM, non-empty document not ending in a newline
    intro hconj
    obtain ⟨hch, hlast⟩ := hconj
    have h5 : create_updated_changelog .BOTTOM (join_nl eLines) changelog =
        changelog ++ join_nl eLines := rfl
    rw [h5, length_split_lines_append _ _ hentry_ne, hentry_lines,
      length_split_lines changelog, if_pos ⟨hch, hlast⟩]
    omega

/-- Claim C4, witness: the amended theorem applied to the two-line entry
`## v1.0.1 … / - fix` and the four-line document of spec §8 scenario 1. -/
theorem c4_merge_line_count_witness :
    split_lines (create_updated_changelog .ABOVE_PREVIOUS
        (join_nl [str "## v1.0.1 - (2024-01-01T00:00:00)", str "- fix"])
        (str "# Changelog\n\n## v1.0.0 - (2024-01-01T00:00:00)\n- prev\n")) =
      [str "# Changelog", str "", str "## v1.0.1 - (2024-01-01T00:00:00)",
       str "- fix", str "## v1.0.0 - (2024-01-01T00:00:00)", str "- prev"] := by
  have h := (c4_merge_line_count_amended
    [str "## v1.0.1 - (2024-01-01T00:00:00)", str "- fix"]
    (str "# Changelog\n\n## v1.0.0 - (2024-01-01T00:00:00)\n- prev\n")
    (by decide) (by decide) (by decide)).1
    [str "# Changelog", str ""] (str "## v1.0.0 - (2024-01-01T00:00:00)")
    [str "- prev"] (by decide) (by decide) (by decide)
  rw [if_neg (by decide)] at h
  exact h.trans (by decide)

/-- Claim C5, counterexample: on a document with no `##` line, ABOVE_PREVIOUS
inserts a separating newline between the entry and the document while TOP
does not, so the two outputs differ. -/
theorem c5_fallback_counterexample :
    (split_lines (str "# Changelog")).all (fun l => !starts_hh l) = true ∧
    create_updated_changelog .ABOVE_PREVIOUS
        (str "## v1.0.1 - (2024-01-01T00:00:00)") (str "# Changelog") ≠
      create_updated_changelog .TOP
        (str "## v1.0.1 - (2024-01-01T00:00:00)") (str "# Changelog") := by
  decide

/-- Claim C5, amended: for every document none of whose lines starts with
`##`, BELOW_PREVIOUS produces exactly the BOTTOM output, while
ABOVE_PREVIOUS produces the entry, a separating newline, then the document —
which is the TOP output with one extra newline, not the TOP output itself. -/
theorem c5_fallback_amended (e changelog : Str)
    (h : ∀ l ∈ split_lines changelog, starts_hh l = false) :
    create_updated_changelog .BELOW_PREVIOUS e changelog =
      create_updated_changelog .BOTTOM e changelog ∧
    create_updated_changelog .ABOVE_PREVIOUS e changelog = e ++ '\n' :: changelog := by
  constructor
  · simp only [create_updated_changelog]
    rw [insert_below_none e _ h]
  · simp only [create_updated_changelog]
    rw [insert_above_none e _ h]

/-- Claim C5, witness: the amended theorem applied to a header-free one-line
document. -/
theorem c5_fallback_witness :
    create_updated_changelog .BELOW_PREVIOUS (str "## vE") (str "# Changelog") =
      create_updated_changelog .BOTTOM (str "## vE") (str "# Changelog") ∧
    create_updated_changelog .ABOVE_PREVIOUS (str "## vE") (str "# Changelog") =
      str "## vE" ++ '\n' :: str "# Changelog" :=
  c5_fallback_amended (str "## vE") (str "# Changelog") (by decide)

end ClaimC4C5

section ClaimC1C3C9

theorem any_classify_iff (items : List ChangeItem) (K : BumpCategory) :
    (items.any fun it => classify_item it == K) = true ↔
      ∃ it ∈ items, classify_item it = K := by
  rw [List.any_eq_true]
  simp [beq_iff_eq]

theorem classify_main_breaking_iff (it : ChangeItem) :
    classify_content_main (item_content_main it) = .BREAKING ↔
      classify_item it = .BREAKING := by
  rw [item_content_main_eq, classify_content_main_breaking, ← classify_content_breaking]
  exact Iff.rfl

/-- `bump_version` on a canonically rendered unprefixed version `A.B.C`,
expressed through its flags. -/
theorem bump_version_digits (a b c : Nat) (items : List ChangeItem) :
    bump_version (version_digits a b c) items =
      (let flags := bump_flags items
       if flags.1 then some (v_render (a + 1) b c)
       else if flags.2.1 then some (v_render a (b + 1) c)
       else if flags.2.2 then some (v_render a b (c + 1))
       else some (version_digits a b c)) := by
  rw [bump_version]
  have hhead : ¬((version_digits a b c).head? = some 'v') := by
    obtain ⟨x, t, hxt, hxd⟩ := version_digits_head_digit a b c
    rw [hxt]
    intro hop
    have hx : x = 'v' := by simpa using hop
    rw [hx] at hxd
    simp [is_digit] at hxd
  rw [if_neg hhead, parse_version_digits]

/-- Claim C1, counterexample: `_bump_version("v1.2.3", [breaking item])`
returns `"v2.2.3"` — major incremented but minor and patch preserved — not
the claimed `"v2.0.0"`. -/
theorem c1_bump_breaking_counterexample :
    bump_version (str "v1.2.3") [.pr (str "breaking change: drop api") (str "")] =
      some (str "v2.2.3") ∧ str "v2.2.3" ≠ str "v2.0.0" := by
  decide

/-- Claim C1, amended: with at least one BREAKING item, the changelogger
bumper `_bump_version` returns `v(X+1).Y.Z` — major incremented, minor and
patch PRESERVED — while `main.calculate_new_version` returns `v(X+1).0.0`,
resetting minor and patch as the claim states. -/
theorem c1_bump_breaking_amended (a b c : Nat) (items : List ChangeItem)
    (h : ∃ it ∈ items, classify_item it = .BREAKING) :
    bump_version (v_render a b c) items = some (v_render (a + 1) b c) ∧
    calculate_new_version (v_render a b c) items = some (v_render (a + 1) 0 0) := by
  have hflag : (items.any fun it => classify_item it == .BREAKING) = true :=
    (any_classify_iff items .BREAKING).2 h
  constructor
  · rw [bump_version_vrender, bump_flags_eq]
    simp [hflag]
  · have hflag2 :
        (items.any fun it =>
          classify_content_main (item_content_main it) == .BREAKING) = true := by
      rw [List.any_eq_true]
      obtain ⟨it, hmem, hcl⟩ := h
      exact ⟨it, hmem, by rw [beq_iff_eq, classify_main_breaking_iff]; exact hcl⟩
    rw [calculate_new_version_vrender, bump_flags_main_eq]
    simp [hflag2]

/-- Claim C1, witness: the amended theorem at version `v1.2.3` with one
breaking pull request. -/
theorem c1_bump_breaking_witness :
    bump_version (v_render 1 2 3) [.pr (str "breaking change: drop api") (str "")] =
      some (v_render 2 2 3) ∧
    calculate_new_version (v_render 1 2 3)
        [.pr (str "breaking change: drop api") (str "")] =
      some (v_render 2 0 0) :=
  c1_bump_breaking_amended 1 2 3 [.pr (str "breaking change: drop api") (str "")]
    (by decide)

/-- Claim C3, counterexample: `_bump_version("v1.2.3", [])` returns
`"1.2.3"`: the leading `"v"` has been stripped, so the input version string
is NOT returned unchanged. -/
theorem c3_no_bump_counterexample :
    bump_version (str "v1.2.3") [] = some (str "1.2.3") ∧
    str "1.2.3" ≠ str "v1.2.3" := by
  decide

/-- Claim C3, amended: on an empty item list, or any list all of whose items
classify NONE, `_bump_version` performs no bump and returns the version with
a leading `"v"` (when present) stripped — unchanged exactly when the input
had no `"v"` prefix.  No explicit no-bump signal reaches the caller; the
only indication is a log warning. -/
theorem c3_no_bump_amended (a b c : Nat) (items : List ChangeItem)
    (h : ∀ it ∈ items, classify_item it = .NONE) :
    bump_version (v_render a b c) items = some (version_digits a b c) ∧
    bump_version (version_digits a b c) items = some (version_digits a b c) := by
  have hflags : bump_flags items = (false, false, false) := by
    rw [bump_flags_eq]
    have h1 : (items.any fun it => classify_item it == .BREAKING) = false := by
      rw [List.any_eq_false]
      intro it hmem
      simp [h it hmem]
    have h2 : (items.any fun it => classify_item it == .FEATURE) = false := by
      rw [List.any_eq_false]
      intro it hmem
      simp [h it hmem]
    have h3 : (items.any fun it => classify_item it == .FIX) = false := by
      rw [List.any_eq_false]
      intro it hmem
      simp [h it hmem]
    rw [h1, h2, h3]
  constructor
  · rw [bump_version_vrender, hflags]
    simp
  · rw [bump_version_digits, hflags]
    simp

/-- Claim C3, witness: the amended theorem at version `1.2.3` (both
`v`-prefixed and bare forms) with the empty item list. -/
theorem c3_no_bump_witness :
    bump_version (v_render 1 2 3) [] = some (version_digits 1 2 3) ∧
    bump_version (version_digits 1 2 3) [] = some (version_digits 1 2 3) :=
  c3_no_bump_amended 1 2 3 [] (by decide)

/-- Claim C9: `_bump_version` changes exactly one of the three counters,
chosen by the single highest-precedence category present
(BREAKING > FEATURE > FIX); in particular a BREAKING item makes the result
`v(X+1).Y.Z` regardless of how many FEATURE or FIX items accompany it, so
bumps are never cumulative. -/
theorem c9_single_bump_precedence (a b c : Nat) (items : List ChangeItem) :
    ((∃ it ∈ items, classify_item it = .BREAKING) →
      bump_version (v_render a b c) items = some (v_render (a + 1) b c)) ∧
    ((¬∃ it ∈ items, classify_item it = .BREAKING) →
      (∃ it ∈ items, classify_item it = .FEATURE) →
      bump_version (v_render a b c) items = some (v_render a (b + 1) c)) ∧
    ((¬∃ it ∈ items, classify_item it = .BREAKING) →
      (¬∃ it ∈ items, classify_item it = .FEATURE) →
      (∃ it ∈ items, classify_item it = .FIX) →
      bump_version (v_render a b c) items = some (v_render a b (c + 1))) := by
  refine ⟨?_, ?_, ?_⟩
  · intro hB
    have hflag := (any_classify_iff items .BREAKING).2 hB
    rw [bump_version_vrender, bump_flags_eq]
    simp [hflag]
  · intro hnB hF
    have hBf : (items.any fun it => classify_item it == .BREAKING) = false := by
      rw [← Bool.not_eq_true]
      exact fun hc => hnB ((any_classify_iff items .BREAKING).1 hc)
    have hFf := (any_classify_iff items .FEATURE).2 hF
    rw [bump_version_vrender, bump_flags_eq]
    simp [hBf, hFf]
  · intro hnB hnF hX
    have hBf : (items.any fun it => classify_item it == .BREAKING) = false := by
      rw [← Bool.not_eq_true]
      exact fun hc => hnB ((any_classify_iff items .BREAKING).1 hc)
    have hFf : (items.any fun it => classify_item it == .FEATURE) = false := by
      rw [← Bool.not_eq_true]
      exact fun hc => hnF ((any_classify_iff items .FEATURE).1 hc)
    have hXf := (any_classify_iff items .FIX).2 hX
    rw [bump_version_vrender, bump_flags_eq]
    simp [hBf, hFf, hXf]

/-- Claim C9, witness: one breaking pull request plus five fix commits on
version `v1.2.3` bump major exactly once: the result is `v2.2.3`. -/
theorem c9_single_bump_witness :
    bump_version (v_render 1 2 3)
      [ChangeItem.pr (str "breaking change: drop api") (str ""),
       ChangeItem.commit (str "fix: a"), ChangeItem.commit (str "fix: b"),
       ChangeItem.commit (str "fix: c"), ChangeItem.commit (str "fix: d"),
       ChangeItem.commit (str "fix: e")] = some (v_render 2 2 3) :=
  (c9_single_bump_precedence 1 2 3
    [ChangeItem.pr (str "breaking change: drop api") (str ""),
     ChangeItem.commit (str "fix: a"), ChangeItem.commit (str "fix: b"),
     ChangeItem.commit (str "fix: c"), ChangeItem.commit (str "fix: d"),
     ChangeItem.commit (str "fix: e")]).1 (by decide)

end ClaimC1C3C9

section ClaimC2C7

theorem version_digits_ne_nil (a b c : Nat) : version_digits a b c ≠ [] := by
  obtain ⟨x, t, hxt, -⟩ := version_digits_head_digit a b c
  simp [hxt]

/-- Claim C2: the entry renderer applied to version `X.Y.Z` and a valid
datetime produces exactly the header `## vX.Y.Z - (DATE)`, the
`changelog_regex` match on that header recovers exactly `(X, Y, Z)` and the
six time fields, and `_get_previous_release_info` on the rendered entry
returns exactly the version text `vX.Y.Z` and the datetime: the
render-then-parse round trip is the identity. -/
theorem c2_header_roundtrip (a b c : Nat) (dt : DateTime) (h : dt_valid dt = true) :
    create_new_entry (version_digits a b c) [] (iso_render dt) =
      str "## v" ++ version_digits a b c ++ str " - (" ++ iso_render dt ++ str ")" ∧
    scan_header (str "## v" ++ version_digits a b c ++ str " - (" ++
        iso_render dt ++ str ")") =
      some ⟨'v' :: version_digits a b c, (a, b, c),
            (dt.year, dt.month, dt.day, dt.hour, dt.minute, dt.second)⟩ ∧
    get_previous_release_info
        (create_new_entry (version_digits a b c) [] (iso_render dt)) =
      some ('v' :: version_digits a b c, dt) := by
  refine ⟨rfl, scan_header_render a b c dt h, ?_⟩
  have hHne : (str "## v" ++ version_digits a b c ++ str " - (" ++
      iso_render dt ++ str ")") ≠ [] := by
    rw [shape_dt_sep]
    simp
  have hHnl : '\n' ∉ (str "## v" ++ version_digits a b c ++ str " - (" ++
      iso_render dt ++ str ")") := by
    rw [shape_dt_sep]
    simp [List.mem_cons, List.mem_append, nat_to_dec_no_nl, iso_render_no_nl]
  have hsh : starts_hh (str "## v" ++ version_digits a b c ++ str " - (" ++
      iso_render dt ++ str ")") = true := by
    rw [shape_dt_sep]
    rfl
  show get_previous_release_info (str "## v" ++ version_digits a b c ++
    str " - (" ++ iso_render dt ++ str ")") = _
  rw [get_previous_release_info, split_lines_no_nl _ hHnl hHne]
  simp only [scan_for_release, hsh, if_true]
  rw [scan_header_render a b c dt h]
  simp [from_iso, h]

/-- Claim C2, witness: the round trip at version `1.2.3` and datetime
2024-01-15T10:20:30. -/
theorem c2_header_roundtrip_witness :
    create_new_entry (version_digits 1 2 3) [] (iso_render ⟨2024, 1, 15, 10, 20, 30⟩) =
      str "## v" ++ version_digits 1 2 3 ++ str " - (" ++
        iso_render ⟨2024, 1, 15, 10, 20, 30⟩ ++ str ")" ∧
    scan_header (str "## v" ++ version_digits 1 2 3 ++ str " - (" ++
        iso_render ⟨2024, 1, 15, 10, 20, 30⟩ ++ str ")") =
      some ⟨'v' :: version_digits 1 2 3, (1, 2, 3), (2024, 1, 15, 10, 20, 30)⟩ ∧
    get_previous_release_info
        (create_new_entry (version_digits 1 2 3) [] (iso_render ⟨2024, 1, 15, 10, 20, 30⟩)) =
      some ('v' :: version_digits 1 2 3, ⟨2024, 1, 15, 10, 20, 30⟩) :=
  c2_header_roundtrip 1 2 3 ⟨2024, 1, 15, 10, 20, 30⟩ (by decide)

/-- Claim C7, counterexample: the release-marker parser of the changelogger
fails outright on a header whose parenthesized value is in date-only form
`YYYY-MM-DD`, contradicting the claim that both textual forms are
supported. -/
theorem c7_time_forms_counterexample :
    get_previous_release_info (str "## v1.2.3 - (2024-01-01)") = none ∧
    scan_header (str "## v1.2.3 - (2024-01-01)") = none := by
  decide

/-- Claim C7, amended: each parser supports exactly one textual time form.
The changelogger's `changelog_regex` accepts the date-time form
`YYYY-MM-DDTHH:MM:SS` and rejects date-only; `main.parse_release_line`
(whose grammar also omits the `" - "` separator) accepts the date-only form
and yields midnight of that date, and rejects date-time.  Neither parser
accepts both forms. -/
theorem c7_time_forms_amended (a b c : Nat) (dt : DateTime) (y mo d : Nat)
    (hdt : dt_valid dt = true) (hv : dt_valid ⟨y, mo, d, 0, 0, 0⟩ = true) :
    scan_header (str "## v" ++ version_digits a b c ++ str " - (" ++
        iso_render dt ++ str ")") =
      some ⟨'v' :: version_digits a b c, (a, b, c),
            (dt.year, dt.month, dt.day, dt.hour, dt.minute, dt.second)⟩ ∧
    scan_header (str "## v" ++ version_digits a b c ++ str " - (" ++
        date_render y mo d ++ str ")") = none ∧
    parse_release_line (str "## v" ++ version_digits a b c ++ str " (" ++
        date_render y mo d ++ str ")") =
      some ('v' :: version_digits a b c, ⟨y, mo, d, 0, 0, 0⟩) ∧
    parse_release_line (str "## v" ++ version_digits a b c ++ str " (" ++
        iso_render dt ++ str ")") = none := by
  have hb := dt_valid_bounds ⟨y, mo, d, 0, 0, 0⟩ hv
  dsimp only at hb
  refine ⟨scan_header_render a b c dt hdt, ?_, ?_, ?_⟩
  · exact scan_header_date_only a b c y mo d (by omega) (by omega) (by omega)
  · rw [shape_main]
    exact parse_release_line_date (version_digits a b c)
      (version_digits_digit_or_dot a b c) (version_digits_ne_nil a b c) y mo d hv
  · rw [shape_main]
    exact parse_release_line_datetime_none (version_digits a b c)
      (version_digits_digit_or_dot a b c) (version_digits_ne_nil a b c) dt hdt

/-- Claim C7, witness: the amended theorem at version `1.2.3`, date-time
2024-01-15T10:20:30 and date 2021-12-31. -/
theorem c7_time_forms_witness :
    scan_header (str "## v" ++ version_digits 1 2 3 ++ str " - (" ++
        iso_render ⟨2024, 1, 15, 10, 20, 30⟩ ++ str ")") =
      some ⟨'v' :: version_digits 1 2 3, (1, 2, 3), (2024, 1, 15, 10, 20, 30)⟩ ∧
    scan_header (str "## v" ++ version_digits 1 2 3 ++ str " - (" ++
        date_render 2021 12 31 ++ str ")") = none ∧
    parse_release_line (str "## v" ++ version_digits 1 2 3 ++ str " (" ++
        date_render 2021 12 31 ++ str ")") =
      some ('v' :: version_digits 1 2 3, ⟨2021, 12, 31, 0, 0, 0⟩) ∧
    parse_release_line (str "## v" ++ version_digits 1 2 3 ++ str " (" ++
        iso_render ⟨2024, 1, 15, 10, 20, 30⟩ ++ str ")") = none :=
  c7_time_forms_amended 1 2 3 ⟨2024, 1, 15, 10, 20, 30⟩ 2021 12 31
    (by decide) (by decide)

end ClaimC2C7

section ClaimC6C8C10

/-- Claim C6 (code bug): a pull request titled `fix: null check`, merged
strictly inside the window 2024-01-01T00:00:00 .. 2024-12-31T23:59:59 and
carrying a recognized keyword, is NOT collected by `_get_pull_requests`: the
line-199 guard admits only items OUTSIDE `[since, until]`, and even for those
the keyword loop iterates the non-iterable `ChangelogEntryType` class and
raises, so the caught exception returns the accumulated (empty) list. -/
theorem c6_pr_window_code_bug :
    dt_lt ⟨2024, 1, 1, 0, 0, 0⟩ ⟨2024, 6, 15, 12, 0, 0⟩ = true ∧
    dt_lt ⟨2024, 6, 15, 12, 0, 0⟩ ⟨2024, 12, 31, 23, 59, 59⟩ = true ∧
    contains_sub (str "fix") (py_lower (str "fix: null check")) = true ∧
    get_pull_requests [⟨str "fix: null check", str "", ⟨2024, 6, 15, 12, 0, 0⟩⟩]
      ⟨2024, 1, 1, 0, 0, 0⟩ ⟨2024, 12, 31, 23, 59, 59⟩ = [] := by
  decide

/-- Claim C8 (code bug): with the changelog document absent, dry-run reports
success without creating anything, but outside dry-run the routine returns
failure even though bootstrapping the new document succeeded: the
`return False` on line 413 is reached unconditionally after the successful
creation and re-fetch. -/
theorem c8_missing_doc_code_bug :
    create_new_changelog_entry
        ⟨true, true, false, true, .ABOVE_PREVIOUS⟩
        ⟨none, true, [], [], str "", true, true⟩ = .ok true ∧
    create_new_changelog_entry
        ⟨true, true, false, false, .ABOVE_PREVIOUS⟩
        ⟨none, true, [], [], str "", true, true⟩ = .ok false := by
  decide

/-- Claim C10: whenever the changelog exists and a previous release marker is
found, disabling commit collection or pull-request collection makes
`create_new_changelog_entry` end in an uncaught `NameError` at
`entries = commits + pull_requests` — the corresponding local variable was
never assigned — rather than return a success or failure boolean. -/
theorem c10_name_error (cfg : RunConfig) (repo : RepoState) (doc : Str)
    (hdoc : repo.changelog_content = some doc)
    (hmark : (get_previous_release_info doc).isSome = true)
    (hflag : cfg.use_commits = false ∨ cfg.use_pull_requests = false) :
    create_new_changelog_entry cfg repo = .name_error := by
  obtain ⟨p, hp⟩ := Option.isSome_iff_exists.1 hmark
  obtain ⟨pv, pd⟩ := p
  rcases hflag with hf | hf
  · simp [create_new_changelog_entry, hdoc, hp, hf]
  · rcases hc : cfg.use_commits <;>
      simp [create_new_changelog_entry, hdoc, hp, hf, hc]

/-- Claim C10, witness: a run with commit collection disabled on a changelog
holding one release header ends in the NameError outcome. -/
theorem c10_name_error_witness :
    create_new_changelog_entry ⟨false, true, false, false, .TOP⟩
        ⟨some (str "## v1.0.0 - (2024-01-01T00:00:00)"), true, [], [], str "",
         true, true⟩ = .name_error :=
  c10_name_error ⟨false, true, false, false, .TOP⟩
    ⟨some (str "## v1.0.0 - (2024-01-01T00:00:00)"), true, [], [], str "",
     true, true⟩
    (str "## v1.0.0 - (2024-01-01T00:00:00)") rfl (by decide) (Or.inl rfl)

end ClaimC6C8C10

end Changelog
